import Mathlib

/-
Verification development for the gemmi CIF core: the DDL dictionary
validator (src/include/gemmi/ddl.hpp) and the streaming grep search
actions (src/grep.cpp), shallowly embedded in Lean 4.

The CIF document model and the value-lexicon helpers (Document, Block,
Item, find_value, find_loop, as_string, is_null, is_numb, as_number,
cif_fail) live in cif.hpp / numb.hpp, which are not part of the sources
under review; those are modelled from the specification (each such
definition carries a doc comment starting with "Modelled from the spec").
Everything else is translated from ddl.hpp and grep.cpp.
-/

set_option maxHeartbeats 1000000

namespace GemmiCif

/-! ## CIF document model (modelled from the spec, cif.hpp is not in src) -/

/-- Modelled from the spec: an Item is a tagged variant over three cases:
a scalar tag/value pair, a loop (table) with its column tags and a flat
row-major value list, and a nested save-frame.  The frame case carries the
nested block's name and items directly (a `Block` structurally). -/
inductive Item where
  | value (tag : String) (val : String)
  | loop (tags : List String) (values : List String)
  | frame (name : String) (items : List Item)

/-- Modelled from the spec: a Block is a named ordered sequence of items. -/
structure Block where
  name : String
  items : List Item

/-- Modelled from the spec: a Document is an ordered sequence of blocks.
Parsing a file into a Document is out of scope here; DDL::open_file is
therefore modelled as taking the already-parsed Document. -/
structure Document where
  blocks : List Block

/-- The Block corresponding to a save-frame item (DDL2 indexes frames as
blocks). -/
def frameBlock (name : String) (items : List Item) : Block := ⟨name, items⟩

/-- Modelled from the spec: Block::find_value — the first scalar `Value`
item carrying the tag; none if the tag is absent or occurs only inside a
loop. -/
def findValueIn : List Item → String → Option String
  | [], _ => none
  | Item.value t v :: rest, tag =>
      if t = tag then some v else findValueIn rest tag
  | Item.loop _ _ :: rest, tag => findValueIn rest tag
  | Item.frame _ _ :: rest, tag => findValueIn rest tag

def Block.find_value (b : Block) (tag : String) : Option String :=
  findValueIn b.items tag

/-- Every `w`-th element of a list, starting at its head (then dropping
`w - 1` elements each step).  Used both for loop columns and for the
validator's strided column walk `for (j = i; j < n; j += ncol)`. -/
def everyW (w : Nat) : List α → List α
  | [] => []
  | x :: xs => x :: everyW w (xs.drop (w - 1))
  termination_by l => l.length
  decreasing_by simp [List.length_drop]; omega

/-- The values of column `i` of a loop with `w` columns: positions
`i, i + w, i + 2w, ...` of the flat value list. -/
def colVals (values : List String) (i w : Nat) : List String :=
  everyW w (values.drop i)

/-- Modelled from the spec: Block::find_loop — the column of values under
the tag in the first loop declaring it; empty if no loop has the tag. -/
def findLoopIn : List Item → String → List String
  | [], _ => []
  | Item.value _ _ :: rest, tag => findLoopIn rest tag
  | Item.loop tags values :: rest, tag =>
      match tags.findIdx? (fun t => t = tag) with
      | some i => colVals values i tags.length
      | none => findLoopIn rest tag
  | Item.frame _ _ :: rest, tag => findLoopIn rest tag

def Block.find_loop (b : Block) (tag : String) : List String :=
  findLoopIn b.items tag

/-! ## Value lexicon (modelled from the spec, numb.hpp is not in src) -/

/-- Modelled from the spec: null markers — `?` ("unknown") and `.`
("inapplicable"). -/
def is_null (v : String) : Bool := v == "?" || v == "."

/-- Modelled from the spec: the single unquoting transform unifying the
quoted and unquoted string forms.  Surrounding matching single or double
quotes are stripped; anything else is returned verbatim.
(Char.ofNat 39 is the single-quote character, Char.ofNat 34 the double
quote.) -/
def as_string (s : String) : String :=
  match s.toList with
  | [] => s
  | c :: rest =>
      if (c = Char.ofNat 39 || c = Char.ofNat 34) &&
         rest ≠ [] && rest.getLast? = some c then
        String.mk rest.dropLast
      else s

def natOfDigits (ds : List Char) : Nat :=
  ds.foldl (fun a c => 10 * a + (c.toNat - 48)) 0

/-- Modelled from the spec: numeric conversion of the "numb" lexical
class — a number optionally followed by a parenthesized
standard-uncertainty suffix, e.g. `12.30(4)`.  The mantissa alone is
parsed (the suffix is discarded); a non-numeric string yields `none`.
The C++ as_number returns NaN for non-numeric input and every ordered
comparison against NaN is false; `none` plays that role here (the range
comparators below treat `none` as compare-false). -/
def parseNumb (cs : List Char) : Option ℚ :=
  let signAndRest : Int × List Char :=
    match cs with
    | c :: r =>
        if c = Char.ofNat 45 then (-1, r)        -- minus sign
        else if c = Char.ofNat 43 then (1, r)    -- plus sign
        else (1, cs)
    | [] => (1, cs)
  let ip := signAndRest.2.takeWhile Char.isDigit
  let afterInt := signAndRest.2.dropWhile Char.isDigit
  let fpAndRest : List Char × List Char :=
    match afterInt with
    | c :: r =>
        if c = Char.ofNat 46 then (r.takeWhile Char.isDigit, r.dropWhile Char.isDigit)
        else ([], afterInt)
    | [] => ([], afterInt)
  let fp := fpAndRest.1
  if ip.isEmpty && fp.isEmpty then none
  else
    let suffixOk : Bool :=
      match fpAndRest.2 with
      | [] => true
      | c :: r =>
          c = Char.ofNat 40 &&                   -- opening parenthesis
          !(r.takeWhile Char.isDigit).isEmpty &&
          r.dropWhile Char.isDigit = [Char.ofNat 41]  -- closing parenthesis
    if suffixOk then
      some (mkRat
        (signAndRest.1 * (natOfDigits ip * 10 ^ fp.length + natOfDigits fp))
        (10 ^ fp.length))
    else none

def as_number (s : String) : Option ℚ := parseNumb s.toList

/-- Modelled from the spec: is_numb validates the numb lexical class
ignoring the uncertainty suffix. -/
def is_numb (s : String) : Bool := (as_number s).isSome

/-! ## DDL validator (translated from src/include/gemmi/ddl.hpp) -/

/-- ddl.hpp: `enum class Trinary : char { Unset, Yes, No }`. -/
inductive Trinary where
  | Unset
  | Yes
  | No
deriving DecidableEq

/-- The messages the validator hands to the failure-reporting hook, one
constructor per construction site in ddl.hpp (the C++ builds the strings
in place; the constructor arguments carry everything the strings
interpolate):
`mustBeList tag` = "tag must be a list", `inList tag` = "tag in list",
`expectedNumber` = "expected number", `outOfRange v` = "value out of
expected range: v", `notInEnum v en` = "v is not one of: en...". -/
inductive FailMsg where
  | mustBeList (tag : String)
  | inList (tag : String)
  | expectedNumber
  | outOfRange (value : String)
  | notInEnum (value : String) (en : List String)
deriving DecidableEq

/-- ddl.hpp validate_enumeration: empty set, null value, or membership of
the unquoted value pass; otherwise the mismatch is reported with the
attempted value and the allowed set. -/
def validate_enumeration (val : String) (en : List String) : Option FailMsg :=
  if en.isEmpty || is_null val || en.contains (as_string val) then none
  else some (FailMsg.notInEnum val en)

/-- ddl.hpp class TypeCheckDDL1 (fields, with the C++ trailing-underscore
names).  The C++ `float range_low_ = -INFINITY / range_high_ = INFINITY`
for an empty range side, and NaN when as_number fails, both make every
ordered comparison false; `none` models both ("no finite bound"). -/
structure TypeCheckDDL1 where
  is_list_ : Trinary := Trinary.Unset
  is_numb_ : Trinary := Trinary.Unset
  has_su_ : Bool := false
  has_range_ : Bool := false
  range_low_ : Option ℚ := none
  range_high_ : Option ℚ := none
  enumeration_ : List String := []

/-- First-colon split of `_enumeration_range`
(`range->find(':')` / `substr`). -/
def splitAtColon : List Char → Option (List Char × List Char)
  | [] => none
  | c :: r =>
      if c = Char.ofNat 58 then some ([], r)    -- the colon
      else match splitAtColon r with
        | some p => some (c :: p.1, p.2)
        | none => none

/-- The `_enumeration_range` part of TypeCheckDDL1::from_block.  With no
colon the C++ sets has_range_ and returns, leaving range_low_/range_high_
uninitialized; the model leaves them at `none`. -/
def applyRange (tc : TypeCheckDDL1) (range : String) : TypeCheckDDL1 :=
  let tc := { tc with has_range_ := true }
  match splitAtColon range.toList with
  | none => tc
  | some p =>
      { tc with
        range_low_ := if p.1.isEmpty then none else as_number (String.mk p.1),
        range_high_ := if p.2.isEmpty then none else as_number (String.mk p.2) }

/-- ddl.hpp TypeCheckDDL1::from_block. -/
def TypeCheckDDL1.from_block (b : Block) : TypeCheckDDL1 :=
  let tc : TypeCheckDDL1 := {}
  let tc :=
    match b.find_value "_list" with
    | some l =>
        if l = "yes" then { tc with is_list_ := Trinary.Yes }
        else if l = "no" then { tc with is_list_ := Trinary.No }
        else tc
    | none => tc
  let tc :=
    match b.find_value "_type" with
    | some ty => { tc with is_numb_ := if ty = "numb" then Trinary.Yes else Trinary.No }
    | none => tc
  let tc :=
    match b.find_value "_type_conditions" with
    | some c => { tc with has_su_ := (c = "esd" || c = "su") }
    | none => tc
  let tc :=
    match b.find_value "_enumeration_range" with
    | some r => applyRange tc r
    | none => tc
  { tc with enumeration_ := (b.find_loop "_enumeration").map as_string }

/-- `x < range_low_` of the C++, where `x` is NaN when the value does not
parse and range_low_ is -INFINITY (or NaN) when unbounded: any comparison
involving `none` is false. -/
def belowLow (low : Option ℚ) (x : Option ℚ) : Bool :=
  match low, x with
  | some l, some v => v < l
  | _, _ => false

/-- `x > range_high_` of the C++, `none` compare-false as in `belowLow`. -/
def aboveHigh (high : Option ℚ) (x : Option ℚ) : Bool :=
  match high, x with
  | some h, some v => h < v
  | _, _ => false

/-- ddl.hpp TypeCheckDDL1::validate_value: numb type check, then numeric
range, then enumeration; the first failure is reported. -/
def TypeCheckDDL1.validate_value (tc : TypeCheckDDL1) (value : String) :
    Option FailMsg :=
  if tc.is_numb_ = Trinary.Yes && !is_null value && !is_numb value then
    some FailMsg.expectedNumber
  else if tc.is_numb_ = Trinary.Yes && tc.has_range_ &&
          (belowLow tc.range_low_ (as_number value) ||
           aboveHigh tc.range_high_ (as_number value)) then
    some (FailMsg.outOfRange value)
  else
    validate_enumeration value tc.enumeration_

/-- ddl.hpp class TypeCheckDDL2: only `_item_enumeration.value` is
checked. -/
structure TypeCheckDDL2 where
  enumeration_ : List String := []

def TypeCheckDDL2.from_block (b : Block) : TypeCheckDDL2 :=
  { enumeration_ := (b.find_loop "_item_enumeration.value").map as_string }

def TypeCheckDDL2.validate_value (tc : TypeCheckDDL2) (value : String) :
    Option FailMsg :=
  validate_enumeration value tc.enumeration_

/-- ddl.hpp class DDL (the fields keep the C++ trailing-underscore names).
The `std::unordered_map<std::string, const Block*> name_index_` is
modelled as an association list holding Block values; `emplace` below
keeps its insert-only-if-absent semantics, which is all the map's find
observes. -/
structure DDL where
  version_ : Nat
  ddl_ : Document
  name_index_ : List (String × Block)
  dict_name_ : String
  dict_version_ : String
  sep_ : String

/-- `std::unordered_map::emplace`: inserts only when the key is not yet
present; an existing binding is never overwritten. -/
def emplace (m : List (String × Block)) (k : String) (v : Block) :
    List (String × Block) :=
  if (m.lookup k).isSome then m else m ++ [(k, v)]

/-- ddl.hpp DDL::find (name_index_.find). -/
def DDL.find (d : DDL) (name : String) : Option Block :=
  d.name_index_.lookup name

/-- ddl.hpp DDL::add_to_index: the scalar `_name` value if present,
otherwise every looped value, each emplaced. -/
def add_to_index (m : List (String × Block)) (b : Block) (name_tag : String) :
    List (String × Block) :=
  match b.find_value name_tag with
  | some name => emplace m (as_string name) b
  | none =>
      (b.find_loop name_tag).foldl (fun m' lname => emplace m' (as_string lname) b) m

/-- The body of DDL::read_ddl1's for-loop over the dictionary's blocks:
index the block by `_name`, and pick the dictionary name/version out of
the `on_this_dictionary` block. -/
def ddl1Step (d : DDL) (b : Block) : DDL :=
  let d := { d with name_index_ := add_to_index d.name_index_ b "_name" }
  if b.name = "on_this_dictionary" then
    let d :=
      match b.find_value "_dictionary_name" with
      | some n => { d with dict_name_ := as_string n }
      | none => d
    match b.find_value "_dictionary_version" with
    | some v => { d with dict_version_ := as_string v }
    | none => d
  else d

/-- ddl.hpp DDL::read_ddl1. -/
def read_ddl1 (d : DDL) : DDL :=
  d.ddl_.blocks.foldl ddl1Step d

/-- The body of DDL::read_ddl2's inner for-loop over a block's items:
index each frame by `_item.name`, and pick the dictionary name/version
from `_dictionary.title` / `_dictionary.version` scalar items (stored
raw, without as_string). -/
def ddl2ItemStep (d : DDL) (item : Item) : DDL :=
  match item with
  | Item.frame n its =>
      { d with name_index_ := add_to_index d.name_index_ (frameBlock n its) "_item.name" }
  | Item.value tag v =>
      if tag = "_dictionary.title" then { d with dict_name_ := v }
      else if tag = "_dictionary.version" then { d with dict_version_ := v }
      else d
  | Item.loop _ _ => d

/-- ddl.hpp DDL::read_ddl2. -/
def read_ddl2 (d : DDL) : DDL :=
  d.ddl_.blocks.foldl (fun d block => block.items.foldl ddl2ItemStep d) d

/-- ddl.hpp DDL::open_file, with the parse (`ddl_.read_file`) factored
out: dialect from the block count (more than one block means DDL1), the
separator fixed from the dialect, then the dialect's index builder. -/
def DDL.open_file (doc : Document) : DDL :=
  let version := if doc.blocks.length > 1 then 1 else 2
  let d : DDL :=
    { version_ := version, ddl_ := doc, name_index_ := [],
      dict_name_ := "", dict_version_ := "",
      sep_ := if version = 1 then "_" else "." }
  if version = 1 then read_ddl1 d else read_ddl2 d

/-- The per-block body of DDL::check_audit_conform's for-loop, with the
C++ early `return false` turned into `some mismatch-message`; `none`
means the loop ran to its end. -/
def checkConformBlocks (d : DDL) (audit_conform : String) :
    List Block → Option String
  | [] => none
  | b :: rest =>
      match b.find_value (audit_conform ++ "dict_name") with
      | none => checkConformBlocks d audit_conform rest
      | some dn =>
          let name := as_string dn
          if name ≠ d.dict_name_ then
            some ("Dictionary name mismatch: " ++ name ++ " vs " ++ d.dict_name_)
          else
            match b.find_value (audit_conform ++ "dict_version") with
            | some dv =>
                let version := as_string dv
                if version ≠ d.dict_version_ then
                  some ("CIF conforms to " ++ name ++ " ver. " ++ version ++
                        " while DDL has ver. " ++ d.dict_version_)
                else checkConformBlocks d audit_conform rest
            | none => checkConformBlocks d audit_conform rest

/-- ddl.hpp DDL::check_audit_conform: the boolean result together with the
message the C++ writes through its out-parameter. -/
def DDL.check_audit_conform (d : DDL) (c : Document) : Bool × String :=
  let audit_conform := "_audit_conform" ++ d.sep_
  match checkConformBlocks d audit_conform c.blocks with
  | some m => (false, m)
  | none =>
      (true, "The cif file is missing " ++ audit_conform ++ "dict_(name|version)")

/-- One call of the cif_fail reporting hook: the originating block, the
item, and the message.  cif_fail itself is not in src; modelled from the
spec as an accumulating reporting hook (never an exception). -/
structure Failure where
  block : Block
  item : Item
  msg : FailMsg

/-- One column of the DDL::validate loop branch: the cardinality check
(`_list no` forbids loop columns, DDL1 only) and the per-value checks
over positions `i, i + ncol, ...` of the flat value list.  Returns the
failures and the unknown tags the column contributes. -/
def validate_column (d : DDL) (b : Block) (it : Item) (values : List String)
    (ncol i : Nat) (tag : String) : List Failure × List String :=
  match d.find tag with
  | none => ([], [tag])
  | some db =>
      if d.version_ = 1 then
        let tc := TypeCheckDDL1.from_block db
        ((if tc.is_list_ = Trinary.No then [⟨b, it, FailMsg.inList tag⟩] else []) ++
         (colVals values i ncol).filterMap
           (fun v => (tc.validate_value v).map (fun m => Failure.mk b it m)), [])
      else
        let tc := TypeCheckDDL2.from_block db
        ((colVals values i ncol).filterMap
           (fun v => (tc.validate_value v).map (fun m => Failure.mk b it m)), [])

/-- The `for (i = 0; i != ncol; i++)` walk over a loop's columns. -/
def validate_columns (d : DDL) (b : Block) (it : Item) (values : List String)
    (ncol : Nat) : Nat → List String → List Failure × List String
  | _, [] => ([], [])
  | i, tag :: rest =>
      let r := validate_column d b it values ncol i tag
      let rs := validate_columns d b it values ncol (i + 1) rest
      (r.1 ++ rs.1, r.2 ++ rs.2)

/-- The per-item body of DDL::validate: scalar items get the `_list yes`
cardinality check and the value checks; loops get the column walk; frames
are skipped. -/
def validate_item (d : DDL) (b : Block) (it : Item) :
    List Failure × List String :=
  match it with
  | Item.value tag v =>
      (match d.find tag with
       | none => ([], [tag])
       | some db =>
           if d.version_ = 1 then
             let tc := TypeCheckDDL1.from_block db
             ((if tc.is_list_ = Trinary.Yes then [⟨b, it, FailMsg.mustBeList tag⟩] else []) ++
              (match tc.validate_value v with
               | some m => [⟨b, it, m⟩]
               | none => []), [])
           else
             let tc := TypeCheckDDL2.from_block db
             ((match tc.validate_value v with
               | some m => [⟨b, it, m⟩]
               | none => []), []))
  | Item.loop tags values => validate_columns d b it values tags.length 0 tags
  | Item.frame _ _ => ([], [])

def validate_items (d : DDL) (b : Block) : List Item → List Failure × List String
  | [] => ([], [])
  | it :: rest =>
      let r := validate_item d b it
      let rs := validate_items d b rest
      (r.1 ++ rs.1, r.2 ++ rs.2)

def validate_blocks (d : DDL) : List Block → List Failure × List String
  | [] => ([], [])
  | b :: rest =>
      let r := validate_items d b b.items
      let rs := validate_blocks d rest
      (r.1 ++ rs.1, r.2 ++ rs.2)

/-- ddl.hpp DDL::validate: every block, every item; the first component
is the sequence of cif_fail reports, the second the unknown-tags
out-parameter. -/
def DDL.validate (d : DDL) (c : Document) : List Failure × List String :=
  validate_blocks d c.blocks

/-! ## Streaming search (translated from src/grep.cpp) -/

/-- grep.cpp struct Parameters.  The C++ `int match_column = -1` sentinel
is an `Option Nat` here (`none` is -1, "no column armed"); the other
counters are the never-negative Nats they hold.  `output` models the
lines the C++ printf writes to stdout, in order. -/
structure Parameters where
  search_tag : String := ""
  max_count : Int := 10
  with_filename : Bool := false
  with_blockname : Bool := true
  with_tag : Bool := false
  summarize : Bool := false
  only_filenames : Bool := false
  inverse : Bool := false
  print_count : Bool := false
  path : String := ""
  block_name : String := ""
  match_value : Bool := false
  match_column : Option Nat := none
  table_width : Nat := 0
  column : Nat := 0
  counter : Nat := 0
  output : List String := []

/-- The line grep.cpp's process_match printf composes: optional
"path: ", optional "block: ", optional "[tag] ", then " value". -/
def matchLine (par : Parameters) (value : String) : String :=
  (if par.with_filename then par.path ++ ": " else "") ++
  (if par.with_blockname then par.block_name ++ ": " else "") ++
  (if par.with_tag then "[" ++ par.search_tag ++ "] " else "") ++
  " " ++ value

/-- grep.cpp process_match: under -c only the counter grows, otherwise
one match line is printed.  (The max-count early-stop in the C++ is
commented out; nothing here reads max_count.) -/
def process_match (value : String) (par : Parameters) : Parameters :=
  if par.print_count then { par with counter := par.counter + 1 }
  else { par with output := par.output ++ [matchLine par value] }

/-- grep.cpp finish_processing: under -c print the per-block count and
reset the counter; otherwise do nothing. -/
def finish_processing (par : Parameters) : Parameters :=
  if par.print_count then
    { par with
      output := par.output ++
        [(if par.with_filename then par.path ++ ": " else "") ++
         (if par.with_blockname then par.block_name ++ ": " else "") ++
         " " ++ toString par.counter],
      counter := 0 }
  else par

/-- The grammar productions the Search action set binds (grep.cpp
`template<> struct Search<rules::...>`), each carrying its matched
span. -/
inductive Event where
  | datablockname (s : String)
  | str_global
  | tag (s : String)
  | value (s : String)
  | str_loop
  | loop_tag (s : String)
  | loop_end
  | loop_value (s : String)

/-- One Search action application, case by case from grep.cpp:
datablockname sets block_name; str_global sets it to "global_"; tag arms
match_value on the search tag; value emits when armed and disarms;
str_loop zeroes table_width; loop_tag records the match column (and
zeroes the row counter) on the search tag and always widens the table;
loop_end runs finish bookkeeping and disarms; loop_value emits when the
running column equals the armed match column, then advances the column,
wrapping to 0 at table_width. -/
def applyEvent (p : Parameters) : Event → Parameters
  | Event.datablockname s => { p with block_name := s }
  | Event.str_global => { p with block_name := "global_" }
  | Event.tag s =>
      if p.search_tag = s then { p with match_value := true } else p
  | Event.value s =>
      if p.match_value then
        { finish_processing (process_match (as_string s) p) with match_value := false }
      else p
  | Event.str_loop => { p with table_width := 0 }
  | Event.loop_tag s =>
      let p1 :=
        if p.search_tag = s then { p with match_column := some p.table_width, column := 0 }
        else p
      { p1 with table_width := p1.table_width + 1 }
  | Event.loop_end =>
      if p.match_column ≠ none then
        { finish_processing p with match_column := none }
      else p
  | Event.loop_value s =>
      match p.match_column with
      | none => p
      | some mc =>
          let p1 := if p.column = mc then process_match (as_string s) p else p
          let p2 := { p1 with column := p1.column + 1 }
          if p2.column = p2.table_width then { p2 with column := 0 } else p2

/-- Left-to-right run of the Search action set over a production
stream. -/
def run (p : Parameters) : List Event → Parameters
  | [] => p
  | e :: es => run (applyEvent p e) es

/-- The production stream of one complete loop construct: the `loop_`
keyword, the declared tags, the flat value stream, the loop end. -/
def loopEvents (tags values : List String) : List Event :=
  [Event.str_loop] ++ tags.map Event.loop_tag ++
    values.map Event.loop_value ++ [Event.loop_end]

/-! ## Index-entry views (for stating what the name index holds) -/

/-- Emplace a whole entry list in order (the repeated-emplace shape that
add_to_index and the read_ddl loops produce). -/
def emplaceAll (m : List (String × Block)) (es : List (String × Block)) :
    List (String × Block) :=
  es.foldl (fun m e => emplace m e.1 e.2) m

/-- The (name, block) pairs one add_to_index call tries to emplace, in
order: the scalar `name_tag` value if present, else every looped value. -/
def blockEntries (b : Block) (name_tag : String) : List (String × Block) :=
  match b.find_value name_tag with
  | some n => [(as_string n, b)]
  | none => (b.find_loop name_tag).map (fun n => (as_string n, b))

/-- The entries one item contributes under DDL2 indexing (frames only). -/
def itemEntries (it : Item) : List (String × Block) :=
  match it with
  | Item.frame n its => blockEntries (frameBlock n its) "_item.name"
  | _ => []

/-- All index insertions a DDL1 dictionary attempts, in processing
order. -/
def ddl1Entries (blocks : List Block) : List (String × Block) :=
  blocks.flatMap (fun b => blockEntries b "_name")

/-- All index insertions a DDL2 dictionary attempts, in processing
order. -/
def ddl2Entries (blocks : List Block) : List (String × Block) :=
  blocks.flatMap (fun bl => bl.items.flatMap itemEntries)

/-! ## Concrete instances used by witnesses and counterexamples -/

/-- A DDL1 dictionary whose second and third blocks both define the name
`_tag_x` (a duplicate), with distinct `_list` attributes so the two
defining blocks are observably different. -/
def dupDict : Document :=
  ⟨[⟨"on_this_dictionary",
      [Item.value "_dictionary_name" "core.dic",
       Item.value "_dictionary_version" "2.3"]⟩,
    ⟨"d1", [Item.value "_name" "_tag_x", Item.value "_list" "yes"]⟩,
    ⟨"d2", [Item.value "_name" "_tag_x", Item.value "_list" "no"]⟩]⟩

/-- The loaded form of `dupDict`. -/
def dupDDL : DDL := DDL.open_file dupDict

/-- A DDL1 defining block declaring a numeric type with range `1:5`. -/
def rangeBlock : Block :=
  ⟨"range_def",
    [Item.value "_name" "_cell_x",
     Item.value "_type" "numb",
     Item.value "_enumeration_range" "1:5"]⟩

/-- A DDL1 defining block with a half-open range `:5` and an enumeration,
exercising the checks a null value must be exempt from. -/
def fussyBlock : Block :=
  ⟨"fussy_def",
    [Item.value "_name" "_cell_y",
     Item.value "_type" "numb",
     Item.value "_enumeration_range" ":5",
     Item.loop ["_enumeration"] ["a", "b"]]⟩

/-- A loaded DDL1 dictionary over `rangeBlock` (plus a filler block so
the dialect detection picks DDL1). -/
def rangeDDL : DDL := DDL.open_file ⟨[rangeBlock, ⟨"filler", []⟩]⟩

/-- A subject document where `_cell_x` appears once as a scalar in each
of two blocks, both values out of range, so the validator must keep
going past the first failure. -/
def twoBadDoc : Document :=
  ⟨[⟨"blk1", [Item.value "_cell_x" "9"]⟩,
    ⟨"blk2", [Item.value "_cell_x" "0"]⟩]⟩

/-- Initial search state for the loop-demultiplexing witness: the spec's
end-to-end scenario, searching `_atom_site.label`. -/
def grepP0 : Parameters :=
  { search_tag := "_atom_site.label", block_name := "blk", path := "f.cif" }

/-- Five loop tags, the search tag in column 2 (0-based). -/
def grepTags : List String :=
  ["_atom_site.group", "_atom_site.id", "_atom_site.label",
   "_atom_site.x", "_atom_site.y"]

/-- Fifteen loop values: three rows of five columns. -/
def grepVals : List String :=
  ["v0", "v1", "v2", "v3", "v4", "v5", "v6", "v7", "v8", "v9",
   "v10", "v11", "v12", "v13", "v14"]

/-- A mid-run search state with nonzero per-block working counters, for
probing what a datablock-name production resets. -/
def probeP : Parameters :=
  { search_tag := "_t", counter := 5, match_value := true,
    match_column := some 3, table_width := 7, column := 4 }

/-! # Helper lemmas: the name index -/

theorem emplaceAll_append (m : List (String × Block)) (es1 es2 : List (String × Block)) :
    emplaceAll m (es1 ++ es2) = emplaceAll (emplaceAll m es1) es2 := by
  simp [emplaceAll, List.foldl_append]

theorem lookup_append (l1 l2 : List (String × Block)) (k : String) :
    (l1 ++ l2).lookup k =
      match l1.lookup k with
      | some v => some v
      | none => l2.lookup k := by
  induction l1 with
  | nil => simp [List.lookup]
  | cons e t ih =>
      obtain ⟨a, v⟩ := e
      by_cases h : k == a <;> simp [List.lookup, h, ih]

theorem lookup_emplace_some (m : List (String × Block)) (a : String) (v : Block)
    (k : String) (r : Block) (h : m.lookup k = some r) :
    (emplace m a v).lookup k = some r := by
  unfold emplace
  split
  · exact h
  · rw [lookup_append, h]

theorem lookup_emplace_none (m : List (String × Block)) (a : String) (v : Block)
    (k : String) (h : m.lookup k = none) :
    (emplace m a v).lookup k = if k == a then some v else none := by
  unfold emplace
  split
  · next hs =>
      rw [h]
      by_cases hk : k == a
      · rw [eq_of_beq hk] at h
        rw [h] at hs
        simp at hs
      · simp [hk]
  · rw [lookup_append, h]
    by_cases hk : k = a
    · simp [List.lookup, hk]
    · have hb : (k == a) = false := by simp [hk]
      simp [List.lookup, hb, hk]

theorem lookup_emplaceAll_some :
    ∀ (es : List (String × Block)) (m : List (String × Block)) (k : String) (r : Block),
      m.lookup k = some r → (emplaceAll m es).lookup k = some r := by
  intro es
  induction es with
  | nil => intro m k r h; exact h
  | cons e t ih =>
      intro m k r h
      exact ih _ _ _ (lookup_emplace_some _ _ _ _ _ h)

theorem lookup_emplaceAll_none :
    ∀ (es : List (String × Block)) (m : List (String × Block)) (k : String),
      m.lookup k = none → (emplaceAll m es).lookup k = es.lookup k := by
  intro es
  induction es with
  | nil => intro m k h; exact h
  | cons e t ih =>
      intro m k h
      obtain ⟨a, v⟩ := e
      by_cases hk : k == a
      · have h1 : (emplace m a v).lookup k = some v := by
          rw [lookup_emplace_none _ _ _ _ h, if_pos hk]
        have h2 := lookup_emplaceAll_some t _ _ _ h1
        simpa [emplaceAll, List.lookup, hk] using h2
      · have h1 : (emplace m a v).lookup k = none := by
          rw [lookup_emplace_none _ _ _ _ h, if_neg hk]
        have h2 := ih _ _ h1
        simpa [emplaceAll, List.lookup, hk] using h2

theorem add_to_index_eq (m : List (String × Block)) (b : Block) (t : String) :
    add_to_index m b t = emplaceAll m (blockEntries b t) := by
  unfold add_to_index blockEntries
  cases h : b.find_value t <;> simp [h, emplaceAll, List.foldl_map]

theorem ddl1Step_fields (d : DDL) (b : Block) :
    (ddl1Step d b).version_ = d.version_ ∧ (ddl1Step d b).sep_ = d.sep_ ∧
    (ddl1Step d b).ddl_ = d.ddl_ ∧
    (ddl1Step d b).name_index_ = add_to_index d.name_index_ b "_name" := by
  refine ⟨?_, ?_, ?_, ?_⟩ <;> (unfold ddl1Step; repeat' split) <;> rfl

theorem ddl2ItemStep_fields (d : DDL) (it : Item) :
    (ddl2ItemStep d it).version_ = d.version_ ∧ (ddl2ItemStep d it).sep_ = d.sep_ ∧
    (ddl2ItemStep d it).ddl_ = d.ddl_ ∧
    (ddl2ItemStep d it).name_index_ = emplaceAll d.name_index_ (itemEntries it) := by
  cases it with
  | value tag v =>
      refine ⟨?_, ?_, ?_, ?_⟩ <;>
        (simp only [ddl2ItemStep, itemEntries]; split_ifs <;> rfl)
  | loop tags values => exact ⟨rfl, rfl, rfl, rfl⟩
  | frame n its => exact ⟨rfl, rfl, rfl, add_to_index_eq _ _ _⟩

theorem foldl_ddl1_fields :
    ∀ (l : List Block) (d : DDL),
      (l.foldl ddl1Step d).version_ = d.version_ ∧
      (l.foldl ddl1Step d).sep_ = d.sep_ ∧
      (l.foldl ddl1Step d).name_index_ =
        emplaceAll d.name_index_ (l.flatMap (fun b => blockEntries b "_name")) := by
  intro l
  induction l with
  | nil => intro d; exact ⟨rfl, rfl, rfl⟩
  | cons b t ih =>
      intro d
      obtain ⟨h1, h2, h3, h4⟩ := ddl1Step_fields d b
      obtain ⟨g1, g2, g3⟩ := ih (ddl1Step d b)
      refine ⟨by rw [List.foldl_cons, g1, h1], by rw [List.foldl_cons, g2, h2], ?_⟩
      rw [List.foldl_cons, g3, h4, add_to_index_eq, List.flatMap_cons, emplaceAll_append]

theorem foldl_ddl2_items_fields :
    ∀ (its : List Item) (d : DDL),
      (its.foldl ddl2ItemStep d).version_ = d.version_ ∧
      (its.foldl ddl2ItemStep d).sep_ = d.sep_ ∧
      (its.foldl ddl2ItemStep d).name_index_ =
        emplaceAll d.name_index_ (its.flatMap itemEntries) := by
  intro its
  induction its with
  | nil => intro d; exact ⟨rfl, rfl, rfl⟩
  | cons it t ih =>
      intro d
      obtain ⟨h1, h2, h3, h4⟩ := ddl2ItemStep_fields d it
      obtain ⟨g1, g2, g3⟩ := ih (ddl2ItemStep d it)
      refine ⟨by rw [List.foldl_cons, g1, h1], by rw [List.foldl_cons, g2, h2], ?_⟩
      rw [List.foldl_cons, g3, h4, List.flatMap_cons, emplaceAll_append]

theorem foldl_ddl2_blocks_fields :
    ∀ (l : List Block) (d : DDL),
      (l.foldl (fun d block => block.items.foldl ddl2ItemStep d) d).version_ = d.version_ ∧
      (l.foldl (fun d block => block.items.foldl ddl2ItemStep d) d).sep_ = d.sep_ ∧
      (l.foldl (fun d block => block.items.foldl ddl2ItemStep d) d).name_index_ =
        emplaceAll d.name_index_ (l.flatMap (fun bl => bl.items.flatMap itemEntries)) := by
  intro l
  induction l with
  | nil => intro d; exact ⟨rfl, rfl, rfl⟩
  | cons b t ih =>
      intro d
      obtain ⟨h1, h2, h3⟩ := foldl_ddl2_items_fields b.items d
      obtain ⟨g1, g2, g3⟩ := ih (b.items.foldl ddl2ItemStep d)
      refine ⟨by rw [List.foldl_cons, g1, h1], by rw [List.foldl_cons, g2, h2], ?_⟩
      rw [List.foldl_cons, g3, h3, List.flatMap_cons, emplaceAll_append]

/-- DDL::open_file with its two let bindings resolved by the block-count
test. -/
theorem open_file_eq (doc : Document) :
    DDL.open_file doc =
      if doc.blocks.length > 1 then
        read_ddl1 { version_ := 1, ddl_ := doc, name_index_ := [],
                    dict_name_ := "", dict_version_ := "", sep_ := "_" }
      else
        read_ddl2 { version_ := 2, ddl_ := doc, name_index_ := [],
                    dict_name_ := "", dict_version_ := "", sep_ := "." } := by
  unfold DDL.open_file
  by_cases h : doc.blocks.length > 1 <;> simp [h]

/-! # Claim C1 -/

/-- C1 counterexample.  `dupDict` defines `_tag_x` in block `d1` and
again in the later block `d2`; the claim says the index maps `_tag_x` to
the later block `d2`, but the loaded index maps it to the earlier block
`d1` (`unordered_map::emplace` never overwrites). -/
theorem claim_C1_counterexample :
    dupDDL.find "_tag_x" =
      some ⟨"d1", [Item.value "_name" "_tag_x", Item.value "_list" "yes"]⟩ ∧
    ¬ dupDDL.find "_tag_x" =
      some ⟨"d2", [Item.value "_name" "_tag_x", Item.value "_list" "no"]⟩ := by
  refine ⟨rfl, fun h => ?_⟩
  have h1 : dupDDL.find "_tag_x" =
      some ⟨"d1", [Item.value "_name" "_tag_x", Item.value "_list" "yes"]⟩ := rfl
  rw [h1] at h
  have h2 := congrArg Block.name (Option.some.inj h)
  exact absurd h2 (by decide)

/-- read_ddl1 over an explicitly given state: the version, separator and
the resulting name index. -/
theorem read_ddl1_fields (ver : Nat) (doc : Document) (ni : List (String × Block))
    (dn dv sp : String) :
    (read_ddl1 ⟨ver, doc, ni, dn, dv, sp⟩).version_ = ver ∧
    (read_ddl1 ⟨ver, doc, ni, dn, dv, sp⟩).sep_ = sp ∧
    (read_ddl1 ⟨ver, doc, ni, dn, dv, sp⟩).name_index_ =
      emplaceAll ni (ddl1Entries doc.blocks) :=
  foldl_ddl1_fields doc.blocks ⟨ver, doc, ni, dn, dv, sp⟩

/-- read_ddl2 over an explicitly given state: the version, separator and
the resulting name index. -/
theorem read_ddl2_fields (ver : Nat) (doc : Document) (ni : List (String × Block))
    (dn dv sp : String) :
    (read_ddl2 ⟨ver, doc, ni, dn, dv, sp⟩).version_ = ver ∧
    (read_ddl2 ⟨ver, doc, ni, dn, dv, sp⟩).sep_ = sp ∧
    (read_ddl2 ⟨ver, doc, ni, dn, dv, sp⟩).name_index_ =
      emplaceAll ni (ddl2Entries doc.blocks) :=
  foldl_ddl2_blocks_fields doc.blocks ⟨ver, doc, ni, dn, dv, sp⟩

/-- C1 (amended): the name index built at load time maps each name —
duplicated or not — to the Block of the EARLIEST (first-processed)
definition carrying it: `DDL::find` agrees with `List.lookup` (first
match) over the full insertion sequence in processing order, for the
DDL1 `_name` indexing and the DDL2 `_item.name` frame indexing alike.
Later duplicates are ignored, because `unordered_map::emplace` inserts
only when the key is absent. -/
theorem claim_C1_amended (doc : Document) (name : String) :
    ((DDL.open_file doc).version_ = 1 →
      (DDL.open_file doc).find name = (ddl1Entries doc.blocks).lookup name) ∧
    ((DDL.open_file doc).version_ = 2 →
      (DDL.open_file doc).find name = (ddl2Entries doc.blocks).lookup name) := by
  rw [open_file_eq]
  by_cases h : doc.blocks.length > 1
  · rw [if_pos h]
    obtain ⟨v1, _, idx1⟩ := read_ddl1_fields 1 doc [] "" "" "_"
    constructor
    · intro _
      unfold DDL.find
      rw [idx1]
      exact lookup_emplaceAll_none _ _ _ rfl
    · intro hv
      rw [v1] at hv
      exact absurd hv (by decide)
  · rw [if_neg h]
    obtain ⟨v2, _, idx2⟩ := read_ddl2_fields 2 doc [] "" "" "."
    constructor
    · intro hv
      rw [v2] at hv
      exact absurd hv (by decide)
    · intro _
      unfold DDL.find
      rw [idx2]
      exact lookup_emplaceAll_none _ _ _ rfl

/-- C1 witness: the amended claim instantiated on `dupDict`. -/
theorem claim_C1_witness :
    (DDL.open_file dupDict).version_ = 1 ∧
    (DDL.open_file dupDict).find "_tag_x" =
      (ddl1Entries dupDict.blocks).lookup "_tag_x" :=
  ⟨rfl, (claim_C1_amended dupDict "_tag_x").1 rfl⟩

/-! # Claim C5 -/

/-- C5 counterexample: a Document with zero blocks.  open_file assigns
it dialect DDL2 (`version_ = 2`), yet it does not have exactly one
block — refuting "DDL2 exactly when it has exactly one block". -/
theorem claim_C5_counterexample :
    ¬ ((DDL.open_file ⟨[]⟩).version_ = 2 ↔ (⟨[]⟩ : Document).blocks.length = 1) := by
  intro h
  have h0 := h.mp rfl
  simp at h0

/-- C5 (amended): after open_file, the dialect is DDL1 exactly when the
Document has more than one block and DDL2 exactly when it has AT MOST
one block (zero or one), and the compound-tag separator is fixed
accordingly: "_" for DDL1, "." for DDL2. -/
theorem claim_C5_amended (doc : Document) :
    ((DDL.open_file doc).version_ = 1 ↔ doc.blocks.length > 1) ∧
    ((DDL.open_file doc).version_ = 2 ↔ doc.blocks.length ≤ 1) ∧
    (DDL.open_file doc).sep_ = (if doc.blocks.length > 1 then "_" else ".") := by
  rw [open_file_eq]
  by_cases h : doc.blocks.length > 1
  · rw [if_pos h, if_pos h]
    obtain ⟨v1, s1, _⟩ := read_ddl1_fields 1 doc [] "" "" "_"
    refine ⟨⟨fun _ => h, fun _ => v1⟩, ⟨fun hv => ?_, fun hle => absurd h (by omega)⟩, s1⟩
    rw [v1] at hv
    exact absurd hv (by decide)
  · rw [if_neg h, if_neg h]
    obtain ⟨v2, s2, _⟩ := read_ddl2_fields 2 doc [] "" "" "."
    refine ⟨⟨fun hv => ?_, fun hgt => absurd hgt h⟩, ⟨fun _ => by omega, fun _ => v2⟩, s2⟩
    rw [v2] at hv
    exact absurd hv (by decide)

/-- C5 witness: the amended claim instantiated on the two-definition
dictionary (3 blocks, hence DDL1 and separator "_") and, through mpr, on
the empty document (0 blocks, hence DDL2). -/
theorem claim_C5_witness :
    (DDL.open_file dupDict).version_ = 1 ∧
    (DDL.open_file dupDict).sep_ = "_" ∧
    (DDL.open_file ⟨[]⟩).version_ = 2 := by
  refine ⟨(claim_C5_amended dupDict).1.mpr (by decide), ?_, ?_⟩
  · have h := (claim_C5_amended dupDict).2.2
    rwa [if_pos (by decide : dupDict.blocks.length > 1)] at h
  · exact (claim_C5_amended ⟨[]⟩).2.1.mpr (by decide)

/-! # Claim C2 -/

theorem belowLow_none (low : Option ℚ) : belowLow low none = false := by
  cases low <;> rfl

theorem aboveHigh_none (high : Option ℚ) : aboveHigh high none = false := by
  cases high <;> rfl

/-- Any DDL1 type check passes a null marker: the numb test is skipped,
the range comparison sees a NaN-like non-number, the enumeration check
short-circuits. -/
theorem validate_value_null1 (tc : TypeCheckDDL1) (v : String)
    (h : is_null v = true) : tc.validate_value v = none := by
  have hv : v = "?" ∨ v = "." := by
    have := h
    unfold is_null at this
    rcases Bool.or_eq_true_iff.mp this with h1 | h1
    · exact Or.inl (eq_of_beq h1)
    · exact Or.inr (eq_of_beq h1)
  have hn : as_number v = none := by rcases hv with rfl | rfl <;> rfl
  unfold TypeCheckDDL1.validate_value
  rw [hn]
  simp [h, belowLow_none, aboveHigh_none, validate_enumeration]

/-- Any DDL2 type check passes a null marker. -/
theorem validate_value_null2 (tc : TypeCheckDDL2) (v : String)
    (h : is_null v = true) : tc.validate_value v = none := by
  unfold TypeCheckDDL2.validate_value validate_enumeration
  simp [h]

/-- C2: for every defining block and every null-marker value (`?` or
`.`), neither dialect's validate_value reports a failure — the type
check, the numeric-range check and the enumeration check are all exempt
— and validate_enumeration itself passes null against any enumeration
set. -/
theorem claim_C2 (b : Block) (en : List String) (v : String)
    (h : is_null v = true) :
    (TypeCheckDDL1.from_block b).validate_value v = none ∧
    (TypeCheckDDL2.from_block b).validate_value v = none ∧
    validate_enumeration v en = none :=
  ⟨validate_value_null1 _ v h, validate_value_null2 _ v h, by
    unfold validate_enumeration; simp [h]⟩

/-- C2 witness: `fussyBlock` declares numeric type, a range and an
enumeration; both `?` and `.` pass anyway. -/
theorem claim_C2_witness :
    is_null "?" = true ∧ is_null "." = true ∧
    (TypeCheckDDL1.from_block fussyBlock).validate_value "?" = none ∧
    (TypeCheckDDL2.from_block fussyBlock).validate_value "." = none :=
  ⟨rfl, rfl, (claim_C2 fussyBlock [] "?" rfl).1,
   (claim_C2 fussyBlock [] "." rfl).2.1⟩

/-! # Claim C4 -/

/-- The range acceptance of validate_value over an arbitrary type-check
record: with a numeric type, an `_enumeration_range`, no enumeration set
and a value that parses to `x`, the value passes exactly when `x` lies
weakly inside every finite bound (an empty/unparsed side constrains
nothing). -/
theorem validate_value_range (tc : TypeCheckDDL1) (v : String) (x : ℚ)
    (h1 : tc.is_numb_ = Trinary.Yes) (h2 : tc.has_range_ = true)
    (h3 : tc.enumeration_ = []) (h4 : as_number v = some x)
    (h5 : is_null v = false) :
    (tc.validate_value v = none ↔
      ((∀ l, tc.range_low_ = some l → l ≤ x) ∧
       (∀ u, tc.range_high_ = some u → x ≤ u))) := by
  have hnumb : is_numb v = true := by simp [is_numb, h4]
  unfold TypeCheckDDL1.validate_value
  rw [h4]
  simp only [h1, h2, h3, h5, hnumb, Bool.not_false, Bool.not_true,
    Bool.and_false, Bool.and_true, Bool.true_and, Bool.false_and]
  cases hl : tc.range_low_ <;> cases hh : tc.range_high_ <;>
    simp [belowLow, aboveHigh, validate_enumeration, not_lt,
      decide_eq_true_eq, Option.some.injEq, forall_eq]

/-- C4: for a DDL1 tag whose defining block yields a numeric type and an
`_enumeration_range` (and no enumeration set), validate_value accepts a
numeric value exactly when it lies weakly within the parsed bounds:
endpoints included, a missing (empty) low or high side unbounded. -/
theorem claim_C4 (b : Block) (v : String) (x : ℚ)
    (h1 : (TypeCheckDDL1.from_block b).is_numb_ = Trinary.Yes)
    (h2 : (TypeCheckDDL1.from_block b).has_range_ = true)
    (h3 : (TypeCheckDDL1.from_block b).enumeration_ = [])
    (h4 : as_number v = some x) (h5 : is_null v = false) :
    ((TypeCheckDDL1.from_block b).validate_value v = none ↔
      ((∀ l, (TypeCheckDDL1.from_block b).range_low_ = some l → l ≤ x) ∧
       (∀ u, (TypeCheckDDL1.from_block b).range_high_ = some u → x ≤ u))) :=
  validate_value_range _ v x h1 h2 h3 h4 h5

/-- C4 witness: `rangeBlock` parses `_enumeration_range` "1:5" into
bounds 1 and 5; the endpoint value "5" is accepted (inclusive), and the
strictly-outside values "0.999" and "5.001" are rejected; `fussyBlock`
parses ":5" into an absent low bound. -/
theorem claim_C4_witness :
    (TypeCheckDDL1.from_block rangeBlock).range_low_ = some 1 ∧
    (TypeCheckDDL1.from_block rangeBlock).range_high_ = some 5 ∧
    (TypeCheckDDL1.from_block fussyBlock).range_low_ = none ∧
    as_number "5" = some 5 ∧
    (TypeCheckDDL1.from_block rangeBlock).validate_value "5" = none ∧
    (TypeCheckDDL1.from_block rangeBlock).validate_value "0.999" =
      some (FailMsg.outOfRange "0.999") ∧
    (TypeCheckDDL1.from_block rangeBlock).validate_value "5.001" =
      some (FailMsg.outOfRange "5.001") := by
  have h := claim_C4 rangeBlock "5" 5 (by decide) (by decide) rfl (by decide) rfl
  have e1 : (TypeCheckDDL1.from_block rangeBlock).range_low_ = some 1 := by decide
  have e2 : (TypeCheckDDL1.from_block rangeBlock).range_high_ = some 5 := by decide
  refine ⟨e1, e2, by decide, by decide, ?_, by decide, by decide⟩
  refine h.mpr ⟨fun l hl => ?_, fun u hu => ?_⟩
  · rw [e1] at hl
    rw [← Option.some.inj hl]
    norm_num
  · rw [e2] at hu
    rw [← Option.some.inj hu]

/-! # Claim C7 -/

/-- The check_audit_conform loop hits a mismatch exactly when some block
declares a dict_name that differs from the dictionary's, or a matching
dict_name together with a declared dict_version that differs. -/
theorem checkConformBlocks_some_iff (d : DDL) (ac : String) :
    ∀ l : List Block,
      (checkConformBlocks d ac l).isSome ↔
        ∃ b ∈ l, ∃ dn, b.find_value (ac ++ "dict_name") = some dn ∧
          (as_string dn ≠ d.dict_name_ ∨
           (as_string dn = d.dict_name_ ∧
            ∃ dv, b.find_value (ac ++ "dict_version") = some dv ∧
              as_string dv ≠ d.dict_version_)) := by
  intro l
  induction l with
  | nil => simp [checkConformBlocks]
  | cons b t ih =>
      unfold checkConformBlocks
      cases hdn : b.find_value (ac ++ "dict_name") with
      | none => dsimp only; simp [hdn, ih]
      | some dn =>
          dsimp only
          by_cases hne : as_string dn = d.dict_name_
          · rw [if_neg (not_not_intro hne)]
            cases hdv : b.find_value (ac ++ "dict_version") with
            | none => dsimp only; simp [hdn, hdv, hne, ih]
            | some dv =>
                dsimp only
                by_cases hvne : as_string dv = d.dict_version_
                · rw [if_neg (not_not_intro hvne)]
                  simp [hdn, hdv, hne, hvne, ih]
                · rw [if_pos hvne]
                  simp [hdn, hdv, hne, hvne]
          · rw [if_pos hne]
            simp [hdn, hne]

/-- Every mismatch message the loop can produce has one of the two
mismatch shapes of the C++ (never the missing-conformance info text). -/
theorem checkConformBlocks_msg (d : DDL) (ac : String) :
    ∀ (l : List Block) (m : String), checkConformBlocks d ac l = some m →
      (∃ n, m = "Dictionary name mismatch: " ++ n ++ " vs " ++ d.dict_name_) ∨
      (∃ n v, m = "CIF conforms to " ++ n ++ " ver. " ++ v ++
        " while DDL has ver. " ++ d.dict_version_) := by
  intro l
  induction l with
  | nil => intro m h; exact absurd h (by simp [checkConformBlocks])
  | cons b t ih =>
      intro m h
      unfold checkConformBlocks at h
      cases hdn : b.find_value (ac ++ "dict_name") with
      | none => rw [hdn] at h; exact ih m h
      | some dn =>
          rw [hdn] at h
          dsimp only at h
          by_cases hne : as_string dn = d.dict_name_
          · rw [if_neg (not_not_intro hne)] at h
            cases hdv : b.find_value (ac ++ "dict_version") with
            | none => rw [hdv] at h; exact ih m h
            | some dv =>
                rw [hdv] at h
                dsimp only at h
                by_cases hvne : as_string dv = d.dict_version_
                · rw [if_neg (not_not_intro hvne)] at h
                  exact ih m h
                · rw [if_pos hvne] at h
                  exact Or.inr ⟨as_string dn, as_string dv, (Option.some.inj h).symm⟩
          · rw [if_pos hne] at h
            exact Or.inl ⟨as_string dn, (Option.some.inj h).symm⟩

/-- With no block declaring a dict_name, the loop runs to its end. -/
theorem checkConformBlocks_none (d : DDL) (ac : String) :
    ∀ l : List Block, (∀ b ∈ l, b.find_value (ac ++ "dict_name") = none) →
      checkConformBlocks d ac l = none := by
  intro l
  induction l with
  | nil => intro _; rfl
  | cons b t ih =>
      intro h
      unfold checkConformBlocks
      rw [h b (List.mem_cons_self b t)]
      exact ih (fun b' hb' => h b' (List.mem_cons_of_mem b hb'))

/-- C7: check_audit_conform returns false exactly when some block
declares a dict_name differing from the dictionary's, or a matching
dict_name with a declared dict_version differing from the dictionary's;
a false return stores one of the two mismatch messages; and when no
block declares a dict_name at all, it returns true with the
informational missing-conformance message. -/
theorem claim_C7 (d : DDL) (c : Document) :
    ((d.check_audit_conform c).1 = false ↔
      ∃ b ∈ c.blocks, ∃ dn,
        b.find_value (("_audit_conform" ++ d.sep_) ++ "dict_name") = some dn ∧
        (as_string dn ≠ d.dict_name_ ∨
         (as_string dn = d.dict_name_ ∧
          ∃ dv, b.find_value (("_audit_conform" ++ d.sep_) ++ "dict_version") = some dv ∧
            as_string dv ≠ d.dict_version_))) ∧
    ((d.check_audit_conform c).1 = false →
      ((∃ n, (d.check_audit_conform c).2 =
          "Dictionary name mismatch: " ++ n ++ " vs " ++ d.dict_name_) ∨
       (∃ n v, (d.check_audit_conform c).2 =
          "CIF conforms to " ++ n ++ " ver. " ++ v ++
          " while DDL has ver. " ++ d.dict_version_))) ∧
    ((∀ b ∈ c.blocks,
        b.find_value (("_audit_conform" ++ d.sep_) ++ "dict_name") = none) →
      d.check_audit_conform c =
        (true, "The cif file is missing " ++ ("_audit_conform" ++ d.sep_) ++
          "dict_(name|version)")) := by
  unfold DDL.check_audit_conform
  dsimp only
  refine ⟨?_, ?_, ?_⟩
  · rw [← checkConformBlocks_some_iff d ("_audit_conform" ++ d.sep_) c.blocks]
    cases h : checkConformBlocks d ("_audit_conform" ++ d.sep_) c.blocks <;> simp [h]
  · intro hf
    cases h : checkConformBlocks d ("_audit_conform" ++ d.sep_) c.blocks with
    | none => rw [h] at hf; simp at hf
    | some m =>
        rw [h] at hf
        dsimp only
        exact checkConformBlocks_msg d _ c.blocks m h
  · intro hnone
    rw [checkConformBlocks_none d _ c.blocks hnone]

/-- C7 witness: against the loaded `dupDict` (name "core.dic", version
"2.3"), a subject declaring "other.dic" yields false, and a subject with
no conformance declaration yields true with the informational message. -/
theorem claim_C7_witness :
    (dupDDL.check_audit_conform
        ⟨[⟨"s", [Item.value "_audit_conform_dict_name" "other.dic"]⟩]⟩).1 = false ∧
    dupDDL.check_audit_conform ⟨[⟨"s", []⟩]⟩ =
      (true, "The cif file is missing _audit_conform_dict_(name|version)") := by
  constructor
  · refine ((claim_C7 dupDDL _).1).mpr
      ⟨⟨"s", [Item.value "_audit_conform_dict_name" "other.dic"]⟩,
        List.mem_cons_self _ _, "other.dic", by decide, Or.inl (by decide)⟩
  · have h := (claim_C7 dupDDL ⟨[⟨"s", []⟩]⟩).2.2
      (by intro b hb; rcases List.mem_singleton.mp hb with rfl; rfl)
    exact h.trans (by decide)

/-! # Helper lemmas: validate's visit structure (for C3 and C6) -/

/-- Failures attached to a column carry the block and item the validator
was visiting. -/
theorem validate_column_shape (d : DDL) (b : Block) (it : Item)
    (values : List String) (ncol i : Nat) (tag : String) :
    ∀ f ∈ (validate_column d b it values ncol i tag).1,
      f.block = b ∧ f.item = it := by
  intro f hf
  unfold validate_column at hf
  cases hfind : d.find tag with
  | none => rw [hfind] at hf; simp at hf
  | some db =>
      rw [hfind] at hf
      dsimp only at hf
      by_cases hv : d.version_ = 1
      · rw [if_pos hv] at hf
        dsimp only at hf
        rcases List.mem_append.mp hf with h1 | h1
        · split at h1 <;> simp at h1
          rw [h1]
          exact ⟨rfl, rfl⟩
        · rcases List.mem_filterMap.mp h1 with ⟨v, _, hmap⟩
          cases hvv : (TypeCheckDDL1.from_block db).validate_value v <;>
            rw [hvv] at hmap <;> simp at hmap
          rw [← hmap]
          exact ⟨rfl, rfl⟩
      · rw [if_neg hv] at hf
        dsimp only at hf
        rcases List.mem_filterMap.mp hf with ⟨v, _, hmap⟩
        cases hvv : (TypeCheckDDL2.from_block db).validate_value v <;>
          rw [hvv] at hmap <;> simp at hmap
        rw [← hmap]
        exact ⟨rfl, rfl⟩

theorem validate_columns_shape (d : DDL) (b : Block) (it : Item)
    (values : List String) (ncol : Nat) :
    ∀ (tags : List String) (i : Nat),
      ∀ f ∈ (validate_columns d b it values ncol i tags).1,
        f.block = b ∧ f.item = it := by
  intro tags
  induction tags with
  | nil => intro i f hf; simp [validate_columns] at hf
  | cons tag rest ih =>
      intro i f hf
      unfold validate_columns at hf
      rcases List.mem_append.mp hf with h1 | h1
      · exact validate_column_shape d b it values ncol i tag f h1
      · exact ih (i + 1) f h1

/-- Every failure validate_item reports carries the visited block and
item. -/
theorem validate_item_shape (d : DDL) (b : Block) (it : Item) :
    ∀ f ∈ (validate_item d b it).1, f.block = b ∧ f.item = it := by
  intro f hf
  cases it with
  | loop tags values => exact validate_columns_shape d b _ values tags.length tags 0 f hf
  | frame n its => simp [validate_item] at hf
  | value tag v =>
      unfold validate_item at hf
      dsimp only at hf
      cases hfind : d.find tag with
      | none => rw [hfind] at hf; simp at hf
      | some db =>
          rw [hfind] at hf
          dsimp only at hf
          by_cases hv : d.version_ = 1
          · rw [if_pos hv] at hf
            dsimp only at hf
            rcases List.mem_append.mp hf with h1 | h1
            · split at h1 <;> simp at h1
              rw [h1]
              exact ⟨rfl, rfl⟩
            · split at h1 <;> simp at h1
              rw [h1]
              exact ⟨rfl, rfl⟩
          · rw [if_neg hv] at hf
            dsimp only at hf
            split at hf <;> simp at hf
            rw [hf]
            exact ⟨rfl, rfl⟩

theorem mem_validate_items (d : DDL) (b : Block) :
    ∀ (l : List Item) (f : Failure),
      (f ∈ (validate_items d b l).1 ↔ ∃ it ∈ l, f ∈ (validate_item d b it).1) := by
  intro l
  induction l with
  | nil => intro f; simp [validate_items]
  | cons it rest ih =>
      intro f
      unfold validate_items
      simp only [List.mem_append, ih, List.mem_cons]
      constructor
      · rintro (h | ⟨it', hit', h⟩)
        · exact ⟨it, Or.inl rfl, h⟩
        · exact ⟨it', Or.inr hit', h⟩
      · rintro ⟨it', hit', h⟩
        rcases hit' with rfl | hit'
        · exact Or.inl h
        · exact Or.inr ⟨it', hit', h⟩

theorem mem_validate_blocks (d : DDL) :
    ∀ (l : List Block) (f : Failure),
      (f ∈ (validate_blocks d l).1 ↔
        ∃ b ∈ l, ∃ it ∈ b.items, f ∈ (validate_item d b it).1) := by
  intro l
  induction l with
  | nil => intro f; simp [validate_blocks]
  | cons b rest ih =>
      intro f
      unfold validate_blocks
      simp only [List.mem_append, ih, mem_validate_items, List.mem_cons]
      constructor
      · rintro (h | ⟨b', hb', h⟩)
        · exact ⟨b, Or.inl rfl, h⟩
        · exact ⟨b', Or.inr hb', h⟩
      · rintro ⟨b', hb', h⟩
        rcases hb' with rfl | hb'
        · exact Or.inl h
        · exact Or.inr ⟨b', hb', h⟩

theorem mem_unknown_items (d : DDL) (b : Block) :
    ∀ (l : List Item) (u : String),
      (u ∈ (validate_items d b l).2 ↔ ∃ it ∈ l, u ∈ (validate_item d b it).2) := by
  intro l
  induction l with
  | nil => intro u; simp [validate_items]
  | cons it rest ih =>
      intro u
      unfold validate_items
      simp only [List.mem_append, ih, List.mem_cons]
      constructor
      · rintro (h | ⟨it', hit', h⟩)
        · exact ⟨it, Or.inl rfl, h⟩
        · exact ⟨it', Or.inr hit', h⟩
      · rintro ⟨it', hit', h⟩
        rcases hit' with rfl | hit'
        · exact Or.inl h
        · exact Or.inr ⟨it', hit', h⟩

theorem mem_unknown_blocks (d : DDL) :
    ∀ (l : List Block) (u : String),
      (u ∈ (validate_blocks d l).2 ↔
        ∃ b ∈ l, ∃ it ∈ b.items, u ∈ (validate_item d b it).2) := by
  intro l
  induction l with
  | nil => intro u; simp [validate_blocks]
  | cons b rest ih =>
      intro u
      unfold validate_blocks
      simp only [List.mem_append, ih, mem_unknown_items, List.mem_cons]
      constructor
      · rintro (h | ⟨b', hb', h⟩)
        · exact ⟨b, Or.inl rfl, h⟩
        · exact ⟨b', Or.inr hb', h⟩
      · rintro ⟨b', hb', h⟩
        rcases hb' with rfl | hb'
        · exact Or.inl h
        · exact Or.inr ⟨b', hb', h⟩

/-- validate_value (DDL1) reports only value failures, never the
cardinality messages built directly in DDL::validate. -/
theorem validate_value1_not_card (tc : TypeCheckDDL1) (v : String) (m : FailMsg)
    (h : tc.validate_value v = some m) :
    (∀ t, m ≠ FailMsg.mustBeList t) ∧ (∀ t, m ≠ FailMsg.inList t) := by
  unfold TypeCheckDDL1.validate_value at h
  split at h
  · cases Option.some.inj h
    exact ⟨fun t => by simp, fun t => by simp⟩
  · split at h
    · cases Option.some.inj h
      exact ⟨fun t => by simp, fun t => by simp⟩
    · unfold validate_enumeration at h
      split at h
      · simp at h
      · cases Option.some.inj h
        exact ⟨fun t => by simp, fun t => by simp⟩

/-- validate_value (DDL2) reports only enumeration failures. -/
theorem validate_value2_not_card (tc : TypeCheckDDL2) (v : String) (m : FailMsg)
    (h : tc.validate_value v = some m) :
    (∀ t, m ≠ FailMsg.mustBeList t) ∧ (∀ t, m ≠ FailMsg.inList t) := by
  unfold TypeCheckDDL2.validate_value validate_enumeration at h
  split at h
  · simp at h
  · cases Option.some.inj h
    exact ⟨fun t => by simp, fun t => by simp⟩

/-- The per-column cardinality finding, characterized: an `inList`
failure for `t` arises from a column exactly when the column's tag is
`t`, the dialect is DDL1, and the dictionary defines `t` with
`_list no`. -/
theorem inList_mem_column (d : DDL) (b : Block) (it : Item)
    (values : List String) (ncol i : Nat) (tag t : String) :
    ((⟨b, it, FailMsg.inList t⟩ : Failure) ∈
        (validate_column d b it values ncol i tag).1 ↔
      (t = tag ∧ d.version_ = 1 ∧
       ∃ db, d.find t = some db ∧
         (TypeCheckDDL1.from_block db).is_list_ = Trinary.No)) := by
  unfold validate_column
  cases hfind : d.find tag with
  | none =>
      dsimp only
      constructor
      · intro hf; simp at hf
      · rintro ⟨rfl, _, db, hdb, _⟩
        rw [hfind] at hdb
        cases hdb
  | some db =>
      dsimp only
      by_cases hv : d.version_ = 1
      · rw [if_pos hv]
        dsimp only
        constructor
        · intro hf
          rcases List.mem_append.mp hf with h1 | h1
          · split at h1
            · next hno =>
                simp only [List.mem_singleton, Failure.mk.injEq] at h1
                obtain ⟨-, -, hmsg⟩ := h1
                cases FailMsg.inList.inj hmsg
                exact ⟨rfl, hv, db, hfind, hno⟩
            · simp at h1
          · exfalso
            rcases List.mem_filterMap.mp h1 with ⟨v, -, hmap⟩
            rcases Option.map_eq_some'.mp hmap with ⟨m, hm, hfm⟩
            have := (validate_value1_not_card _ _ _ hm).2 t
            rw [Failure.mk.injEq] at hfm
            exact this hfm.2.2
        · rintro ⟨rfl, -, db', hdb', hno⟩
          rw [hfind] at hdb'
          cases Option.some.inj hdb'
          refine List.mem_append.mpr (Or.inl ?_)
          rw [if_pos hno]
          exact List.mem_singleton_self _
      · rw [if_neg hv]
        dsimp only
        constructor
        · intro hf
          exfalso
          rcases List.mem_filterMap.mp hf with ⟨v, -, hmap⟩
          rcases Option.map_eq_some'.mp hmap with ⟨m, hm, hfm⟩
          have := (validate_value2_not_card _ _ _ hm).2 t
          rw [Failure.mk.injEq] at hfm
          exact this hfm.2.2
        · rintro ⟨-, hv1, -⟩
          exact absurd hv1 hv

/-- No column produces a `mustBeList` failure. -/
theorem mustBeList_not_mem_column (d : DDL) (b : Block) (it : Item)
    (values : List String) (ncol i : Nat) (tag t : String) :
    (⟨b, it, FailMsg.mustBeList t⟩ : Failure) ∉
      (validate_column d b it values ncol i tag).1 := by
  intro hf
  unfold validate_column at hf
  cases hfind : d.find tag with
  | none => rw [hfind] at hf; simp at hf
  | some db =>
      rw [hfind] at hf
      dsimp only at hf
      by_cases hv : d.version_ = 1
      · rw [if_pos hv] at hf
        dsimp only at hf
        rcases List.mem_append.mp hf with h1 | h1
        · split at h1
          · simp only [List.mem_singleton, Failure.mk.injEq] at h1
            exact absurd h1.2.2 (by simp)
          · simp at h1
        · rcases List.mem_filterMap.mp h1 with ⟨v, -, hmap⟩
          rcases Option.map_eq_some'.mp hmap with ⟨m, hm, hfm⟩
          rw [Failure.mk.injEq] at hfm
          exact (validate_value1_not_card _ _ _ hm).1 t hfm.2.2
      · rw [if_neg hv] at hf
        dsimp only at hf
        rcases List.mem_filterMap.mp hf with ⟨v, -, hmap⟩
        rcases Option.map_eq_some'.mp hmap with ⟨m, hm, hfm⟩
        rw [Failure.mk.injEq] at hfm
        exact (validate_value2_not_card _ _ _ hm).1 t hfm.2.2

/-- The column walk, characterized for `inList` failures: exactly the
declared tags whose definition says `_list no` (DDL1 only). -/
theorem inList_mem_columns (d : DDL) (b : Block) (it : Item)
    (values : List String) (ncol : Nat) :
    ∀ (tags : List String) (i : Nat) (t : String),
      ((⟨b, it, FailMsg.inList t⟩ : Failure) ∈
          (validate_columns d b it values ncol i tags).1 ↔
        (t ∈ tags ∧ d.version_ = 1 ∧
         ∃ db, d.find t = some db ∧
           (TypeCheckDDL1.from_block db).is_list_ = Trinary.No)) := by
  intro tags
  induction tags with
  | nil => intro i t; simp [validate_columns]
  | cons tag rest ih =>
      intro i t
      unfold validate_columns
      rw [List.mem_append, inList_mem_column, ih]
      constructor
      · rintro (⟨rfl, h⟩ | ⟨hmem, h⟩)
        · exact ⟨List.mem_cons_self _ _, h⟩
        · exact ⟨List.mem_cons_of_mem _ hmem, h⟩
      · rintro ⟨hmem, h⟩
        rcases List.mem_cons.mp hmem with rfl | hmem
        · exact Or.inl ⟨rfl, h⟩
        · exact Or.inr ⟨hmem, h⟩

theorem mustBeList_not_mem_columns (d : DDL) (b : Block) (it : Item)
    (values : List String) (ncol : Nat) :
    ∀ (tags : List String) (i : Nat) (t : String),
      (⟨b, it, FailMsg.mustBeList t⟩ : Failure) ∉
        (validate_columns d b it values ncol i tags).1 := by
  intro tags
  induction tags with
  | nil => intro i t h; simp [validate_columns] at h
  | cons tag rest ih =>
      intro i t h
      unfold validate_columns at h
      rcases List.mem_append.mp h with h1 | h1
      · exact mustBeList_not_mem_column d b it values ncol i tag t h1
      · exact ih (i + 1) t h1

/-- The per-item `mustBeList` characterization: exactly the scalar items
whose tag's DDL1 definition says `_list yes`. -/
theorem mustBeList_mem_item (d : DDL) (b : Block) (it : Item) (t : String) :
    ((⟨b, it, FailMsg.mustBeList t⟩ : Failure) ∈ (validate_item d b it).1 ↔
      ((∃ v, it = Item.value t v) ∧ d.version_ = 1 ∧
       ∃ db, d.find t = some db ∧
         (TypeCheckDDL1.from_block db).is_list_ = Trinary.Yes)) := by
  cases it with
  | frame n its => simp [validate_item]
  | loop tags values =>
      constructor
      · intro hf
        exact absurd hf (mustBeList_not_mem_columns d b _ values tags.length tags 0 t)
      · rintro ⟨⟨v, hcontra⟩, -⟩
        exact absurd hcontra (by simp)
  | value tag v =>
      unfold validate_item
      dsimp only
      cases hfind : d.find tag with
      | none =>
          dsimp only
          constructor
          · intro hf; simp at hf
          · rintro ⟨⟨v0, heq⟩, -, db, hdb, -⟩
            obtain ⟨rfl, rfl⟩ : tag = t ∧ v = v0 := by
              injection heq with h1 h2; exact ⟨h1, h2⟩
            rw [hfind] at hdb
            cases hdb
      | some db =>
          dsimp only
          by_cases hv : d.version_ = 1
          · rw [if_pos hv]
            dsimp only
            constructor
            · intro hf
              rcases List.mem_append.mp hf with h1 | h1
              · split at h1
                · next hyes =>
                    simp only [List.mem_singleton, Failure.mk.injEq] at h1
                    obtain ⟨-, -, hmsg⟩ := h1
                    cases FailMsg.mustBeList.inj hmsg
                    exact ⟨⟨v, rfl⟩, hv, db, hfind, hyes⟩
                · simp at h1
              · exfalso
                split at h1
                · next m hm =>
                    simp only [List.mem_singleton, Failure.mk.injEq] at h1
                    exact (validate_value1_not_card _ _ _ hm).1 t h1.2.2.symm
                · simp at h1
            · rintro ⟨⟨v0, heq⟩, -, db', hdb', hyes⟩
              obtain ⟨rfl, rfl⟩ : tag = t ∧ v = v0 := by
                injection heq with h1 h2; exact ⟨h1, h2⟩
              rw [hfind] at hdb'
              cases Option.some.inj hdb'
              refine List.mem_append.mpr (Or.inl ?_)
              rw [if_pos hyes]
              exact List.mem_singleton_self _
          · rw [if_neg hv]
            dsimp only
            constructor
            · intro hf
              exfalso
              split at hf
              · next m hm =>
                  simp only [List.mem_singleton, Failure.mk.injEq] at hf
                  exact (validate_value2_not_card _ _ _ hm).1 t hf.2.2.symm
              · simp at hf
            · rintro ⟨-, hv1, -⟩
              exact absurd hv1 hv

/-- The per-item `inList` characterization: exactly the loop items
declaring a tag whose DDL1 definition says `_list no`. -/
theorem inList_mem_item (d : DDL) (b : Block) (it : Item) (t : String) :
    ((⟨b, it, FailMsg.inList t⟩ : Failure) ∈ (validate_item d b it).1 ↔
      ((∃ tags values, it = Item.loop tags values ∧ t ∈ tags) ∧
       d.version_ = 1 ∧
       ∃ db, d.find t = some db ∧
         (TypeCheckDDL1.from_block db).is_list_ = Trinary.No)) := by
  cases it with
  | frame n its => simp [validate_item]
  | loop tags values =>
      show _ ∈ (validate_columns d b _ values tags.length 0 tags).1 ↔ _
      rw [inList_mem_columns]
      constructor
      · rintro ⟨hmem, h⟩
        exact ⟨⟨tags, values, rfl, hmem⟩, h⟩
      · rintro ⟨⟨tags', values', heq, hmem⟩, h⟩
        obtain ⟨rfl, rfl⟩ : tags = tags' ∧ values = values' := by
          injection heq with h1 h2; exact ⟨h1, h2⟩
        exact ⟨hmem, h⟩
  | value tag v =>
      unfold validate_item
      dsimp only
      constructor
      · intro hf
        exfalso
        cases hfind : d.find tag with
        | none => rw [hfind] at hf; simp at hf
        | some db =>
            rw [hfind] at hf
            dsimp only at hf
            by_cases hv : d.version_ = 1
            · rw [if_pos hv] at hf
              dsimp only at hf
              rcases List.mem_append.mp hf with h1 | h1
              · split at h1
                · simp only [List.mem_singleton, Failure.mk.injEq] at h1
                  exact absurd h1.2.2 (by simp)
                · simp at h1
              · split at h1
                · next m hm =>
                    simp only [List.mem_singleton, Failure.mk.injEq] at h1
                    exact (validate_value1_not_card _ _ _ hm).2 t h1.2.2.symm
                · simp at h1
            · rw [if_neg hv] at hf
              dsimp only at hf
              split at hf
              · next m hm =>
                  simp only [List.mem_singleton, Failure.mk.injEq] at hf
                  exact (validate_value2_not_card _ _ _ hm).2 t hf.2.2.symm
              · simp at hf
      · rintro ⟨⟨tags', values', heq, -⟩, -⟩
        exact absurd heq (by simp)

/-! # Claim C3 -/

/-- C3: under DDL::validate, the cardinality failures are characterized
exactly — a "must be a list" failure for tag `t` is reported iff `t`
occurs as a bare scalar Value item somewhere in the document and its
DDL1 definition sets `_list` to yes, and a "tag in list" failure is
reported iff `t` occurs among some loop's column tags and its DDL1
definition sets `_list` to no.  In particular a `_list yes` tag in a
loop, a `_list no` tag as a scalar, and a `_list`-unset tag anywhere
produce no cardinality failure of the respective kind. -/
theorem claim_C3 (d : DDL) (c : Document) (b : Block) (it : Item) (t : String) :
    ((⟨b, it, FailMsg.mustBeList t⟩ : Failure) ∈ (DDL.validate d c).1 ↔
      (b ∈ c.blocks ∧ it ∈ b.items ∧ (∃ v, it = Item.value t v) ∧
       d.version_ = 1 ∧
       ∃ db, d.find t = some db ∧
         (TypeCheckDDL1.from_block db).is_list_ = Trinary.Yes)) ∧
    ((⟨b, it, FailMsg.inList t⟩ : Failure) ∈ (DDL.validate d c).1 ↔
      (b ∈ c.blocks ∧ it ∈ b.items ∧
       (∃ tags values, it = Item.loop tags values ∧ t ∈ tags) ∧
       d.version_ = 1 ∧
       ∃ db, d.find t = some db ∧
         (TypeCheckDDL1.from_block db).is_list_ = Trinary.No)) := by
  constructor
  · rw [show DDL.validate d c = validate_blocks d c.blocks from rfl,
      mem_validate_blocks]
    constructor
    · rintro ⟨b', hb', it', hit', hf⟩
      obtain ⟨hfb, hfi⟩ := validate_item_shape d b' it' _ hf
      have hbb : b' = b := hfb.symm
      have hii : it' = it := hfi.symm
      rw [hbb] at hb' hit' hf
      rw [hii] at hit' hf
      obtain ⟨h1, h2, h3⟩ := (mustBeList_mem_item d b it t).mp hf
      exact ⟨hb', hit', h1, h2, h3⟩
    · rintro ⟨hb, hit, h1, h2, h3⟩
      exact ⟨b, hb, it, hit, (mustBeList_mem_item d b it t).mpr ⟨h1, h2, h3⟩⟩
  · rw [show DDL.validate d c = validate_blocks d c.blocks from rfl,
      mem_validate_blocks]
    constructor
    · rintro ⟨b', hb', it', hit', hf⟩
      obtain ⟨hfb, hfi⟩ := validate_item_shape d b' it' _ hf
      have hbb : b' = b := hfb.symm
      have hii : it' = it := hfi.symm
      rw [hbb] at hb' hit' hf
      rw [hii] at hit' hf
      obtain ⟨h1, h2, h3⟩ := (inList_mem_item d b it t).mp hf
      exact ⟨hb', hit', h1, h2, h3⟩
    · rintro ⟨hb, hit, h1, h2, h3⟩
      exact ⟨b, hb, it, hit, (inList_mem_item d b it t).mpr ⟨h1, h2, h3⟩⟩

/-- C3 witness: under `dupDict` (where `_tag_x` resolves to the `d1`
definition with `_list yes`), a scalar `_tag_x` occurrence yields the
"must be a list" failure, and the same tag as a loop column yields no
"in list" failure. -/
theorem claim_C3_witness :
    ((⟨⟨"s", [Item.value "_tag_x" "5"]⟩, Item.value "_tag_x" "5",
        FailMsg.mustBeList "_tag_x"⟩ : Failure) ∈
      (DDL.validate dupDDL ⟨[⟨"s", [Item.value "_tag_x" "5"]⟩]⟩).1) ∧
    ¬ ((⟨⟨"s2", [Item.loop ["_tag_x"] ["1"]]⟩, Item.loop ["_tag_x"] ["1"],
        FailMsg.inList "_tag_x"⟩ : Failure) ∈
      (DDL.validate dupDDL ⟨[⟨"s2", [Item.loop ["_tag_x"] ["1"]]⟩]⟩).1) := by
  constructor
  · refine (claim_C3 dupDDL ⟨[⟨"s", [Item.value "_tag_x" "5"]⟩]⟩
        ⟨"s", [Item.value "_tag_x" "5"]⟩ (Item.value "_tag_x" "5") "_tag_x").1.mpr
      ⟨List.mem_cons_self _ _, List.mem_cons_self _ _, ⟨"5", rfl⟩, rfl,
        ⟨"d1", [Item.value "_name" "_tag_x", Item.value "_list" "yes"]⟩, rfl,
        by decide⟩
  · intro hmem
    have h := (claim_C3 dupDDL ⟨[⟨"s2", [Item.loop ["_tag_x"] ["1"]]⟩]⟩
        ⟨"s2", [Item.loop ["_tag_x"] ["1"]]⟩ (Item.loop ["_tag_x"] ["1"])
        "_tag_x").2.mp hmem
    obtain ⟨-, -, -, -, db, hdb, hno⟩ := h
    have hfind : dupDDL.find "_tag_x" =
        some ⟨"d1", [Item.value "_name" "_tag_x", Item.value "_list" "yes"]⟩ := rfl
    rw [hfind] at hdb
    cases Option.some.inj hdb
    exact absurd hno (by decide)

/-! # Claim C6 -/

/-- C6: DDL::validate visits every item of every block; whatever
failures and unknown tags the per-item validation produces for any
(block, item) of the document appear in validate's output, regardless
of what other items produce — a failure is delivered through the
accumulating cif_fail hook and never aborts the run. -/
theorem claim_C6 (d : DDL) (c : Document) (b : Block) (it : Item)
    (hb : b ∈ c.blocks) (hit : it ∈ b.items) :
    (∀ f ∈ (validate_item d b it).1, f ∈ (DDL.validate d c).1) ∧
    (∀ u ∈ (validate_item d b it).2, u ∈ (DDL.validate d c).2) := by
  constructor
  · intro f hf
    exact (mem_validate_blocks d c.blocks f).mpr ⟨b, hb, it, hit, hf⟩
  · intro u hu
    exact (mem_unknown_blocks d c.blocks u).mpr ⟨b, hb, it, hit, hu⟩

/-- C6 witness: in `twoBadDoc` both blocks hold an out-of-range
`_cell_x`; the failure of the second block still appears in the output,
i.e. the first failure did not abort validation. -/
theorem claim_C6_witness :
    ((⟨⟨"blk2", [Item.value "_cell_x" "0"]⟩, Item.value "_cell_x" "0",
        FailMsg.outOfRange "0"⟩ : Failure) ∈
      (DDL.validate rangeDDL twoBadDoc).1) ∧
    ((⟨⟨"blk1", [Item.value "_cell_x" "9"]⟩, Item.value "_cell_x" "9",
        FailMsg.outOfRange "9"⟩ : Failure) ∈
      (DDL.validate rangeDDL twoBadDoc).1) := by
  constructor
  · apply (claim_C6 rangeDDL twoBadDoc ⟨"blk2", [Item.value "_cell_x" "0"]⟩
      (Item.value "_cell_x" "0")
      (List.mem_cons_of_mem _ (List.mem_cons_self _ _))
      (List.mem_cons_self _ _)).1
    have h : (validate_item rangeDDL ⟨"blk2", [Item.value "_cell_x" "0"]⟩
        (Item.value "_cell_x" "0")).1 =
        [⟨⟨"blk2", [Item.value "_cell_x" "0"]⟩, Item.value "_cell_x" "0",
          FailMsg.outOfRange "0"⟩] := rfl
    rw [h]
    exact List.mem_singleton_self _
  · apply (claim_C6 rangeDDL twoBadDoc ⟨"blk1", [Item.value "_cell_x" "9"]⟩
      (Item.value "_cell_x" "9")
      (List.mem_cons_self _ _)
      (List.mem_cons_self _ _)).1
    have h : (validate_item rangeDDL ⟨"blk1", [Item.value "_cell_x" "9"]⟩
        (Item.value "_cell_x" "9")).1 =
        [⟨⟨"blk1", [Item.value "_cell_x" "9"]⟩, Item.value "_cell_x" "9",
          FailMsg.outOfRange "9"⟩] := rfl
    rw [h]
    exact List.mem_singleton_self _

/-! # Claim C10 -/

/-- C10 counterexample: on a datablock-name production with counter 5,
match_value armed and match_column 3, the action does NOT reset the
per-block working counters — match_value stays true, match_column stays
3 and the counter stays 5, refuting the claimed reset. -/
theorem claim_C10_counterexample :
    ¬ ((applyEvent probeP (Event.datablockname "b")).match_value = false ∧
       (applyEvent probeP (Event.datablockname "b")).match_column = none ∧
       (applyEvent probeP (Event.datablockname "b")).counter = 0) := by
  decide

/-- C10 (amended): the datablock-name action sets block_name to the
matched name and the global_ action sets it to the literal "global_",
and BOTH leave every other field unchanged — not only the caller's
search_tag and output flags but also the per-block working counters
(match_value, match_column, column, table_width, counter), which are not
reset. -/
theorem claim_C10_amended (p : Parameters) (s : String) :
    (applyEvent p (Event.datablockname s)).block_name = s ∧
    (applyEvent p Event.str_global).block_name = "global_" ∧
    (applyEvent p (Event.datablockname s)).search_tag = p.search_tag ∧
    (applyEvent p (Event.datablockname s)).with_filename = p.with_filename ∧
    (applyEvent p (Event.datablockname s)).with_blockname = p.with_blockname ∧
    (applyEvent p (Event.datablockname s)).with_tag = p.with_tag ∧
    (applyEvent p (Event.datablockname s)).print_count = p.print_count ∧
    (applyEvent p (Event.datablockname s)).max_count = p.max_count ∧
    (applyEvent p (Event.datablockname s)).match_value = p.match_value ∧
    (applyEvent p (Event.datablockname s)).match_column = p.match_column ∧
    (applyEvent p (Event.datablockname s)).table_width = p.table_width ∧
    (applyEvent p (Event.datablockname s)).column = p.column ∧
    (applyEvent p (Event.datablockname s)).counter = p.counter ∧
    (applyEvent p (Event.datablockname s)).output = p.output ∧
    (applyEvent p Event.str_global).search_tag = p.search_tag ∧
    (applyEvent p Event.str_global).match_value = p.match_value ∧
    (applyEvent p Event.str_global).match_column = p.match_column ∧
    (applyEvent p Event.str_global).counter = p.counter ∧
    (applyEvent p Event.str_global).output = p.output :=
  ⟨rfl, rfl, rfl, rfl, rfl, rfl, rfl, rfl, rfl, rfl, rfl, rfl, rfl, rfl,
   rfl, rfl, rfl, rfl, rfl⟩

/-! # Claim C9 -/

theorem run_cons (p : Parameters) (e : Event) (es : List Event) :
    run p (e :: es) = run (applyEvent p e) es := rfl

/-- No Search action reads or writes max_count: a step from a state with
max_count overridden is the overridden step. -/
theorem applyEvent_max_count (p : Parameters) (m : Int) (e : Event) :
    applyEvent { p with max_count := m } e =
      { applyEvent p e with max_count := m } := by
  cases e with
  | datablockname s => rfl
  | str_global => rfl
  | tag s =>
      by_cases h : p.search_tag = s <;>
        simp [applyEvent, h]
  | value s =>
      by_cases h : p.match_value <;>
        by_cases hpc : p.print_count <;>
          simp [applyEvent, process_match, finish_processing, matchLine, h, hpc]
  | str_loop => rfl
  | loop_tag s =>
      by_cases h : p.search_tag = s <;>
        simp [applyEvent, h]
  | loop_end =>
      by_cases h : p.match_column = none <;>
        by_cases hpc : p.print_count <;>
          simp [applyEvent, finish_processing, h, hpc]
  | loop_value s =>
      cases hmc : p.match_column with
      | none => simp [applyEvent, hmc]
      | some mc =>
          by_cases h1 : p.column = mc <;>
            by_cases hpc : p.print_count <;>
              simp [applyEvent, process_match, matchLine, hmc, h1, hpc] <;>
                split_ifs <;> rfl

/-- Runs commute with overriding max_count. -/
theorem run_max_count (m : Int) :
    ∀ (evts : List Event) (p : Parameters),
      run { p with max_count := m } evts = { run p evts with max_count := m } := by
  intro evts
  induction evts with
  | nil => intro p; rfl
  | cons e es ih =>
      intro p
      rw [run_cons, applyEvent_max_count, ih, run_cons]

/-- C9: the max-count cap is not wired into the streaming search — two
runs over the same production stream differing only in max_count
produce the same emitted output lines and the same counter; the whole
final state agrees except for the max_count field itself. -/
theorem claim_C9 (p : Parameters) (m1 m2 : Int) (evts : List Event) :
    (run { p with max_count := m1 } evts).output =
      (run { p with max_count := m2 } evts).output ∧
    (run { p with max_count := m1 } evts).counter =
      (run { p with max_count := m2 } evts).counter ∧
    run { p with max_count := m1 } evts =
      { run { p with max_count := m2 } evts with max_count := m1 } := by
  refine ⟨?_, ?_, ?_⟩ <;>
    rw [run_max_count m1 evts p, run_max_count m2 evts p]

/-! # Helper lemmas: strided column extraction (for C8) -/

theorem everyW_nil (w : Nat) : everyW w ([] : List α) = [] := by
  unfold everyW
  rfl

theorem everyW_cons (w : Nat) (x : α) (xs : List α) :
    everyW w (x :: xs) = x :: everyW w (xs.drop (w - 1)) := by
  conv_lhs => unfold everyW

theorem colVals_nil (i w : Nat) : colVals [] i w = [] := by
  simp [colVals, everyW_nil]

theorem colVals_cons_zero (v : String) (vs : List String) (w : Nat) :
    colVals (v :: vs) 0 w = v :: colVals vs (w - 1) w := by
  simp only [colVals, List.drop_zero]
  rw [everyW_cons]

theorem colVals_cons_succ (v : String) (vs : List String) (d w : Nat) :
    colVals (v :: vs) (d + 1) w = colVals vs d w := by
  simp [colVals]

/-- The number of elements the strided walk visits: one per started
window of `w`. -/
theorem everyW_length (w : Nat) (hw : 0 < w) :
    ∀ (n : Nat) (l : List α), l.length ≤ n →
      (everyW w l).length = (l.length + (w - 1)) / w := by
  intro n
  induction n with
  | zero =>
      intro l hl
      have h0 : l = [] := List.eq_nil_of_length_eq_zero (Nat.le_zero.mp hl)
      subst h0
      rw [everyW_nil]
      simp only [List.length_nil, Nat.zero_add]
      rw [Nat.div_eq_of_lt (by omega)]
  | succ n ih =>
      intro l hl
      cases l with
      | nil =>
          rw [everyW_nil]
          simp only [List.length_nil, Nat.zero_add]
          rw [Nat.div_eq_of_lt (by omega)]
      | cons x xs =>
          rw [everyW_cons]
          simp only [List.length_cons]
          simp only [List.length_cons] at hl
          rw [ih (xs.drop (w - 1)) (by simp only [List.length_drop]; omega),
            List.length_drop]
          rcases Nat.le_total (w - 1) xs.length with hle | hgt
          · rw [Nat.sub_add_cancel hle]
            have he : xs.length + 1 + (w - 1) = xs.length + w := by omega
            rw [he, Nat.add_div_right _ hw]
          · have h0 : xs.length - (w - 1) = 0 := by omega
            rw [h0]
            have l1 : (0 + (w - 1)) / w = 0 := Nat.div_eq_of_lt (by omega)
            have he : xs.length + 1 + (w - 1) = xs.length + w := by omega
            have l2 : (xs.length + 1 + (w - 1)) / w = 1 := by
              rw [he, Nat.add_div_right _ hw, Nat.div_eq_of_lt (by omega)]
            rw [l1, l2]

/-- The strided walk reads positions `0, w, 2w, ...`. -/
theorem everyW_getElem (w : Nat) (hw : 0 < w) :
    ∀ (r : Nat) (l : List α), (everyW w l)[r]? = l[r * w]? := by
  intro r
  induction r with
  | zero =>
      intro l
      cases l with
      | nil => rw [everyW_nil]; simp
      | cons x xs => rw [everyW_cons]; simp
  | succ r ih =>
      intro l
      cases l with
      | nil => rw [everyW_nil]; simp
      | cons x xs =>
          rw [everyW_cons, List.getElem?_cons_succ, ih (xs.drop (w - 1)),
            List.getElem?_drop]
          have he : (r + 1) * w = (w - 1 + r * w) + 1 := by
            have : (r + 1) * w = r * w + w := by ring
            omega
          rw [he, List.getElem?_cons_succ]

/-- Column `c` of a `w`-wide loop holds exactly one value per row: with
`n` values and `w` dividing `n`, `n / w` of them, the element for row
`r` sitting at position `r * w + c` of the flat stream. -/
theorem colVals_spec (values : List String) (c w : Nat) (hc : c < w) :
    ((w ∣ values.length → (colVals values c w).length = values.length / w) ∧
     (∀ r, (colVals values c w)[r]? = values[r * w + c]?)) := by
  have hw : 0 < w := by omega
  constructor
  · intro ⟨q, hq⟩
    unfold colVals
    rw [everyW_length w hw (values.drop c).length _ le_rfl, List.length_drop,
      hq]
    rcases Nat.eq_zero_or_pos q with rfl | hqpos
    · have h0 : w * 0 - c = 0 := by omega
      rw [h0, Nat.zero_add, Nat.div_eq_of_lt (by omega : w - 1 < w),
        Nat.mul_zero, Nat.zero_div]
    · have h1 : w * q - c + (w - 1) = (w - 1 - c) + (q - 1) * w + w := by
        have hq1 : w * q = (q - 1) * w + w := by
          cases q with
          | zero => omega
          | succ q0 => simp only [Nat.add_sub_cancel]; ring
        omega
      rw [h1, Nat.add_div_right _ hw, Nat.add_mul_div_right _ _ hw,
        Nat.div_eq_of_lt (by omega : w - 1 - c < w),
        Nat.mul_div_cancel_left _ hw]
      omega
  · intro r
    unfold colVals
    rw [everyW_getElem w hw r, List.getElem?_drop]
    congr 1
    omega

/-! # Helper lemmas: the streaming loop demultiplexer (for C8) -/

/-- matchLine reads only the display fields, so updating output, column
and table_width does not change the line it formats. -/
theorem matchLine_irrel (p : Parameters) (out : List String) (col tw : Nat) :
    matchLine { p with table_width := tw, output := out, column := col } =
      matchLine p := rfl

theorem matchLine_irrel2 (p : Parameters) (col tw : Nat) :
    matchLine { p with table_width := tw, column := col } = matchLine p := rfl

theorem applyEvent_loop_tag_nomatch (p : Parameters) (s : String)
    (h : ¬ p.search_tag = s) :
    applyEvent p (Event.loop_tag s) =
      { p with table_width := p.table_width + 1 } := by
  simp [applyEvent, h]

theorem applyEvent_loop_tag_match (p : Parameters) (s : String)
    (h : p.search_tag = s) :
    applyEvent p (Event.loop_tag s) =
      { p with match_column := some p.table_width, column := 0,
               table_width := p.table_width + 1 } := by
  simp [applyEvent, h]

/-- Running the loop-tag actions over tags none of which is the search
tag only widens the table. -/
theorem run_loop_tags_nomatch (t : String) :
    ∀ (tags : List String) (p : Parameters), p.search_tag = t → t ∉ tags →
      run p (tags.map Event.loop_tag) =
        { p with table_width := p.table_width + tags.length } := by
  intro tags
  induction tags with
  | nil =>
      intro p hst hnm
      rfl
  | cons tag rest ih =>
      intro p hst hnm
      rw [List.map_cons, run_cons,
        applyEvent_loop_tag_nomatch p tag
          (by rw [hst]; exact fun he => hnm (he ▸ List.mem_cons_self _ _)),
        ih { p with table_width := p.table_width + 1 } hst
          (fun hm => hnm (List.mem_cons_of_mem _ hm))]
      have he : p.table_width + 1 + rest.length =
          p.table_width + (rest.length + 1) := by omega
      rw [he]
      simp

/-- One loop-value step, resolved: with a match column armed and the
counting mode off, the step emits iff the column hits the match column,
then advances and wraps the column. -/
theorem applyEvent_loop_value (p : Parameters) (v : String) (mc : Nat)
    (hmc : p.match_column = some mc) (hpc : p.print_count = false) :
    applyEvent p (Event.loop_value v) =
      if p.column = mc then
        (if p.column + 1 = p.table_width then
          { p with output := p.output ++ [matchLine p (as_string v)],
                   column := 0 }
         else
          { p with output := p.output ++ [matchLine p (as_string v)],
                   column := p.column + 1 })
      else
        (if p.column + 1 = p.table_width then { p with column := 0 }
         else { p with column := p.column + 1 }) := by
  unfold applyEvent
  rw [hmc]
  dsimp only
  by_cases h1 : p.column = mc <;>
    simp [process_match, hpc, h1] <;> split_ifs <;>
      first
        | rfl
        | simp [hmc]

/-- The loop-value run, fully resolved: with match column `c` armed in a
`w`-wide table and the counter at `j`, the run emits exactly the values
the column counter meets at `c` — the strided walk starting at the
distance from `j` to the next multiple-of-`w` hit of `c` — and leaves
the column counter at `(j + n) % w`. -/
theorem run_loop_values (c w : Nat) (hc : c < w) :
    ∀ (vals : List String) (p : Parameters) (j : Nat),
      p.print_count = false → p.match_column = some c → p.table_width = w →
      p.column = j → j < w →
      run p (vals.map Event.loop_value) =
        { p with
          column := (j + vals.length) % w,
          output := p.output ++
            (colVals vals (if j ≤ c then c - j else w + c - j) w).map
              (fun v => matchLine p (as_string v)) } := by
  intro vals
  induction vals with
  | nil =>
      intro p j hpc hmc htw hcol hjw
      simp only [List.map_nil, colVals_nil, List.length_nil, Nat.add_zero,
        List.map_nil, List.append_nil]
      rw [Nat.mod_eq_of_lt hjw, ← hcol]
      rfl
  | cons v vs ih =>
      intro p j hpc hmc htw hcol hjw
      rw [List.map_cons, run_cons, applyEvent_loop_value p v c hmc hpc, hcol,
        htw]
      simp only [List.length_cons]
      by_cases hjc : j = c
      · rw [if_pos hjc]
        have hdist : (if j ≤ c then c - j else w + c - j) = 0 := by
          rw [if_pos (by omega)]
          omega
        rw [hdist, colVals_cons_zero, List.map_cons]
        conv_rhs => rw [List.append_cons]
        by_cases hwrap : j + 1 = w
        · rw [if_pos hwrap,
            ih { p with table_width := w,
                        output := p.output ++ [matchLine p (as_string v)],
                        column := 0 } 0 hpc hmc rfl rfl (by omega)]
          dsimp only
          simp only [matchLine_irrel, matchLine_irrel2]
          have hd2 : (if 0 ≤ c then c - 0 else w + c - 0) = w - 1 := by
            rw [if_pos (by omega)]
            omega
          have hc2 : (0 + vs.length) % w = (j + (vs.length + 1)) % w := by
            rw [Nat.zero_add]
            have he : j + (vs.length + 1) = w + vs.length := by omega
            rw [he, Nat.add_mod_left]
          rw [hd2, hc2]
        · rw [if_neg hwrap,
            ih { p with table_width := w,
                        output := p.output ++ [matchLine p (as_string v)],
                        column := j + 1 } (j + 1) hpc hmc rfl rfl (by omega)]
          dsimp only
          simp only [matchLine_irrel, matchLine_irrel2]
          have hd2 : (if j + 1 ≤ c then c - (j + 1) else w + c - (j + 1)) =
              w - 1 := by
            rw [if_neg (by omega)]
            omega
          have hc2 : (j + 1 + vs.length) % w = (j + (vs.length + 1)) % w := by
            have he : j + 1 + vs.length = j + (vs.length + 1) := by omega
            rw [he]
          rw [hd2, hc2]
      · rw [if_neg hjc]
        by_cases hwrap : j + 1 = w
        · rw [if_pos hwrap,
            ih { p with table_width := w, column := 0 } 0 hpc hmc rfl rfl
              (by omega)]
          dsimp only
          simp only [matchLine_irrel, matchLine_irrel2]
          have hdist2 : (if j ≤ c then c - j else w + c - j) = c + 1 := by
            rw [if_neg (by omega)]
            omega
          have hd2 : (if 0 ≤ c then c - 0 else w + c - 0) = c := by
            rw [if_pos (by omega)]
            omega
          have hc2 : (0 + vs.length) % w = (j + (vs.length + 1)) % w := by
            rw [Nat.zero_add]
            have he : j + (vs.length + 1) = w + vs.length := by omega
            rw [he, Nat.add_mod_left]
          rw [hdist2, colVals_cons_succ, hd2, hc2]
        · rw [if_neg hwrap,
            ih { p with table_width := w, column := j + 1 } (j + 1) hpc hmc rfl
              rfl (by omega)]
          dsimp only
          simp only [matchLine_irrel, matchLine_irrel2]
          have hdist : (if j ≤ c then c - j else w + c - j) =
              (if j + 1 ≤ c then c - (j + 1) else w + c - (j + 1)) + 1 := by
            split_ifs <;> omega
          have hc2 : (j + 1 + vs.length) % w = (j + (vs.length + 1)) % w := by
            have he : j + 1 + vs.length = j + (vs.length + 1) := by omega
            rw [he]
          rw [hdist, colVals_cons_succ, hc2]

theorem run_singleton (q : Parameters) (e : Event) :
    run q [e] = applyEvent q e := rfl

theorem run_append (l1 l2 : List Event) :
    ∀ p : Parameters, run p (l1 ++ l2) = run (run p l1) l2 := by
  induction l1 with
  | nil => intro p; rfl
  | cons e es ih =>
      intro p
      rw [List.cons_append, run_cons, run_cons, ih]

theorem applyEvent_loop_end (q : Parameters) (hpc : q.print_count = false)
    (h : q.match_column ≠ none) :
    applyEvent q Event.loop_end = { q with match_column := none } := by
  simp [applyEvent, h, finish_processing, hpc]

theorem matchLine_irrel3 (p : Parameters) (mc : Option Nat) (col tw : Nat) :
    matchLine { p with match_column := mc, table_width := tw, column := col } =
      matchLine p := rfl

/-- The loop-tag phase around the single occurrence of the search tag:
the pre-tags widen the table, the matching tag records its column and
zeroes the row counter, the post-tags widen further. -/
theorem run_loop_tags_around (t : String) (pre post : List String)
    (p : Parameters) (hst : p.search_tag = t) (hpre : t ∉ pre)
    (hpost : t ∉ post) :
    run p ((pre ++ t :: post).map Event.loop_tag) =
      { p with match_column := some (p.table_width + pre.length),
               column := 0,
               table_width := p.table_width + pre.length + 1 + post.length } := by
  rw [List.map_append, run_append, run_loop_tags_nomatch t pre p hst hpre,
    List.map_cons, run_cons,
    applyEvent_loop_tag_match
      { p with table_width := p.table_width + pre.length } t hst]
  dsimp only
  rw [run_loop_tags_nomatch t post
      { p with match_column := some (p.table_width + pre.length),
               column := 0,
               table_width := p.table_width + pre.length + 1 } hst hpost]

/-! # Claim C8 -/

/-- C8: over the production stream of one complete loop whose declared
tags are `pre ++ [t] ++ post` (the search tag `t` in column
`c = pre.length` of `w = pre.length + 1 + post.length` columns, and
nowhere else) and whose flat value stream is `values`, a run starting in
a disarmed, non-counting state emits exactly the column-`c` values of
the stream in row order — and that emitted column has `n / w` entries
when `w` divides `n = values.length`, the row-`r` entry being the value
at position `r * w + c`. -/
theorem claim_C8 (p : Parameters) (t : String) (pre post values : List String)
    (hpc : p.print_count = false) (hst : p.search_tag = t)
    (hpre : t ∉ pre) (hpost : t ∉ post) :
    (run p (loopEvents (pre ++ t :: post) values)).output =
      p.output ++
        (colVals values pre.length (pre ++ t :: post).length).map
          (fun v => matchLine p (as_string v)) ∧
    ((pre ++ t :: post).length ∣ values.length →
      (colVals values pre.length (pre ++ t :: post).length).length =
        values.length / (pre ++ t :: post).length) ∧
    (∀ r, (colVals values pre.length (pre ++ t :: post).length)[r]? =
      values[r * (pre ++ t :: post).length + pre.length]?) := by
  have hw : (pre ++ t :: post).length = pre.length + 1 + post.length := by
    simp [List.length_append]
    omega
  have hc : pre.length < (pre ++ t :: post).length := by omega
  refine ⟨?_, (colVals_spec values pre.length _ hc).1,
    (colVals_spec values pre.length _ hc).2⟩
  unfold loopEvents
  rw [run_append, run_append, run_append]
  have e0 : run p [Event.str_loop] = { p with table_width := 0 } := rfl
  rw [e0, run_loop_tags_around t pre post { p with table_width := 0 } hst
    hpre hpost]
  dsimp only
  simp only [Nat.zero_add]
  rw [run_loop_values pre.length (pre ++ t :: post).length hc values
    { p with match_column := some pre.length, column := 0,
             table_width := pre.length + 1 + post.length }
    0 hpc rfl hw.symm rfl (by omega)]
  dsimp only
  simp only [Nat.zero_add]
  have hdist : (if 0 ≤ pre.length then pre.length - 0
      else (pre ++ t :: post).length + pre.length - 0) = pre.length := by
    rw [if_pos (by omega)]
    omega
  rw [hdist]
  rw [run_singleton]
  rw [applyEvent_loop_end
    { p with match_column := some pre.length,
             column := values.length % (pre ++ t :: post).length,
             table_width := pre.length + 1 + post.length,
             output := p.output ++
               (colVals values pre.length (pre ++ t :: post).length).map
                 (fun v => matchLine
                   { p with match_column := some pre.length,
                            column := 0,
                            table_width := pre.length + 1 + post.length }
                   (as_string v)) }
    hpc (by dsimp only; exact fun h => Option.noConfusion h)]
  dsimp only
  simp only [matchLine_irrel3]

/-- C8 witness: the spec's end-to-end scenario — searching
`_atom_site.label`, declared as column 2 of 5, over 15 loop values (3
rows) emits exactly the 3 column-2 values in row order. -/
theorem claim_C8_witness :
    grepP0.print_count = false ∧
    (run grepP0 (loopEvents grepTags grepVals)).output =
      grepP0.output ++
        (colVals grepVals 2 5).map (fun v => matchLine grepP0 (as_string v)) ∧
    (run grepP0 (loopEvents grepTags grepVals)).output =
      ["blk:  v2", "blk:  v7", "blk:  v12"] := by
  refine ⟨rfl, ?_, by decide⟩
  exact (claim_C8 grepP0 "_atom_site.label"
    ["_atom_site.group", "_atom_site.id"] ["_atom_site.x", "_atom_site.y"]
    grepVals rfl rfl (by decide) (by decide)).1

end GemmiCif
